import Mathlib

set_option allowUnsafeReducibility true
attribute [local semireducible] Rat.add Rat.mul Rat.sub Rat.inv

/-!
Verification development for the narrative discovery and scoring engine of
the `superteam-narrative-tool` repository (Python).  The definitions below
are a shallow embedding of `app/analysis/engine.py` and
`app/analysis/snapshots.py`: Python floats are modelled as `ℚ`, Python
dictionaries with possibly-missing keys as structures with `Option` fields,
and code that can raise (`d["key"]` on a missing key) as computations in
`Except PyErr`.  Display-only numeric formatting (f-string `:.1f` style) is
abstracted by `toString` on `ℚ`; nothing proved below depends on it.
-/

namespace NarrativeTool

/-! ### String primitives

Python string operations are re-implemented structurally over `List Char`
so that every definition evaluates by kernel reduction.  All data handled
by the program (catalog keywords, corpus text) is ASCII, so ASCII
lowercasing models Python `str.lower`. -/

/-- ASCII lowercasing of one character, as Python `str.lower` acts on ASCII. -/
def lowerChar (c : Char) : Char :=
  if 'A' ≤ c ∧ c ≤ 'Z' then Char.ofNat (c.toNat + 32) else c

/-- ASCII lowercasing of a string (Python `str.lower`). -/
def lowerStr (s : String) : String :=
  ⟨s.data.map lowerChar⟩

/-- Python slicing `s[:n]` (first `n` code points). -/
def strTake (s : String) (n : Nat) : String :=
  ⟨s.data.take n⟩

/-- Boolean prefix test on character lists. -/
def leadsWith : List Char → List Char → Bool
  | [], _ => true
  | _ :: _, [] => false
  | a :: as, b :: bs => a == b && leadsWith as bs

/-- Fuel-driven worker for `pyReplace`; the fuel is the length of the
scanned list, so it never runs out. -/
def replaceAux (pat rep : List Char) : Nat → List Char → List Char
  | _, [] => []
  | 0, l => l
  | fuel + 1, c :: cs =>
    if leadsWith pat (c :: cs) then
      rep ++ replaceAux pat rep fuel (List.drop (pat.length - 1) cs)
    else
      c :: replaceAux pat rep fuel cs

/-- Python `s.replace(pat, rep)` for a non-empty pattern: replace every
(left-to-right, non-overlapping) occurrence.  The only use in the source is
`probe["query"].replace("solana ", "")`. -/
def pyReplace (s pat rep : String) : String :=
  if pat.data = [] then s else ⟨replaceAux pat.data rep.data s.data.length s.data⟩

/-- Python substring test `needle in hay`. -/
def strContains (hay needle : String) : Bool :=
  (List.range (hay.data.length + 1)).any fun i => leadsWith needle.data (hay.data.drop i)

/-- Maximal runs of characters satisfying `p` (helper for regex
`[a-z]+` extraction and whitespace splitting). -/
def runsBy (p : Char → Bool) : List Char → List (List Char)
  | [] => []
  | c :: cs =>
    if p c then
      match cs, runsBy p cs with
      | c' :: _, r :: rs => if p c' then (c :: r) :: rs else [c] :: r :: rs
      | _ :: _, [] => [[c]]
      | [], _ => [[c]]
    else runsBy p cs

/-- Python `re.findall(r"[a-z]+", text)`: maximal runs of lowercase ASCII
letters. -/
def lowerRuns (s : String) : List String :=
  (runsBy (fun c => 'a' ≤ c && c ≤ 'z') s.data).map fun l => ⟨l⟩

/-- Python `s.split()` (split on whitespace runs, dropping empties). -/
def splitWs (s : String) : List String :=
  (runsBy (fun c => !(c == ' ' || c == '\t' || c == '\n')) s.data).map fun l => ⟨l⟩

/-- Python `sep.join(xs)`. -/
def joinSep (sep : String) : List String → String
  | [] => ""
  | [x] => x
  | x :: y :: rest => x ++ sep ++ joinSep sep (y :: rest)

/-- Python `str.title()` for a single lowercase-alphabetic word:
capitalize the first letter. -/
def titleWord (s : String) : String :=
  match s.data with
  | [] => ""
  | c :: cs => ⟨(if 'a' ≤ c ∧ c ≤ 'z' then Char.ofNat (c.toNat - 32) else c) :: cs⟩

/-! ### Rounding

Python `round(x, k)` on the exact rationals used here.  The half-way
tie-break (Python rounds ties to even) is modelled as round-half-up; no
statement below depends on the tie-break.  `ratFloor` is a computable
floor (numerator floor-divided by denominator), proved equal to `⌊·⌋`
in `ratFloor_eq_floor` below. -/

/-- Floor of a rational, computably. -/
def ratFloor (q : ℚ) : ℤ := Int.fdiv q.num q.den

/-- Round to the nearest integer (ties upward), computably. -/
def pyRound (q : ℚ) : ℤ := ratFloor (q + 1 / 2)

/-- Python `round(x, 1)`. -/
def round1 (q : ℚ) : ℚ := (pyRound (q * 10) : ℚ) / 10

/-! ### Stable sorting

Python `sorted(..., reverse=True)` and `list.sort` are stable.  A stable
insertion sort over a boolean "comes no later than" relation reproduces
exactly the list Python produces (stable sorts agree on every total
preorder). -/

/-- Insert `x` before the first element `y` with `le x y`. -/
def insertLe (le : α → α → Bool) (x : α) : List α → List α
  | [] => [x]
  | y :: ys => if le x y then x :: y :: ys else y :: insertLe le x ys

/-- Stable insertion sort. -/
def stableSortBy (le : α → α → Bool) : List α → List α
  | [] => []
  | a :: rest => insertLe le a (stableSortBy le rest)

/-! ### Signals and Python-style failure

A raw payload field that the Python code reads with `d.get(key, default)`
is an `Option` consumed with `Option.getD`; a field read with `d[key]`
(which raises `KeyError` when absent) goes through `req`, in the
`Except PyErr` monad.  A record field that is present in the JSON but
`null` is not distinguished from an absent one.  The `metrics` mapping
each signal carries in the source is display-only (nothing downstream
reads it); it is elided here, but every `d[key]` lookup the source
performs while building it is kept, since those lookups can raise. -/

/-- A Python exception escaping a normalizer. -/
inductive PyErr where
  | keyError (key : String)
deriving DecidableEq

/-- One extracted signal (`engine.py` builds these as dicts). -/
structure Signal where
  source : String
  type : String
  topic : String
  text : String
  strength_raw : ℚ
deriving DecidableEq

instance {ε α : Type} [DecidableEq ε] [DecidableEq α] : DecidableEq (Except ε α) := fun x y =>
  match x, y with
  | .ok a, .ok b =>
    if h : a = b then .isTrue (congrArg Except.ok h)
    else .isFalse fun hh => h (Except.ok.inj hh)
  | .ok _, .error _ => .isFalse fun hh => Except.noConfusion hh
  | .error _, .ok _ => .isFalse fun hh => Except.noConfusion hh
  | .error e, .error f =>
    if h : e = f then .isTrue (congrArg Except.error h)
    else .isFalse fun hh => h (Except.error.inj hh)

/-- Python `d[key]`: the value, or `KeyError` when the field is absent. -/
def req (key : String) : Option α → Except PyErr α
  | some a => .ok a
  | none => .error (.keyError key)

/-- Sequence a fallible extraction over a list (a Python `for` loop that
appends to `signals`): the first raised error aborts the whole run. -/
def collectME (f : α → Except PyErr (List Signal)) : List α → Except PyErr (List Signal)
  | [] => .ok []
  | x :: xs => do
    let s ← f x
    let rest ← collectME f xs
    pure (s ++ rest)

/-- Fallible map over a list, first error wins. -/
def mapME (f : α → Except PyErr β) : List α → Except PyErr (List β)
  | [] => .ok []
  | x :: xs => do
    let b ← f x
    let rest ← mapME f xs
    pure (b :: rest)

/-! ### GitHub payload and `extract_github_signals` -/

/-- One entry of `github["narrative_probes"]`. -/
structure Probe where
  query : Option String
  count : Option ℚ
  total_stars : Option ℚ
deriving DecidableEq

/-- One entry of `github["new_repos"]` / `github["trending_repos"]`. -/
structure Repo where
  name : Option String
  stars : Option ℚ
  topics : Option (List String)
  description : Option String
deriving DecidableEq

/-- The GitHub collector payload. -/
structure GithubPayload where
  narrative_probes : Option (List Probe)
  new_repos : Option (List Repo)
  trending_repos : Option (List Repo)
deriving DecidableEq

/-- `engine.py` lines 26-37: one signal per narrative probe with a
positive result count; `probe["query"]` is a required key. -/
def probeSignal (probe : Probe) : Except PyErr (List Signal) :=
  let count := probe.count.getD 0
  let stars := probe.total_stars.getD 0
  if count > 0 then do
    let q ← req "query" probe.query
    pure [{ source := "github", type := "narrative_probe",
            topic := pyReplace q "solana " "",
            text := toString count ++ " active repos matching \x27" ++ q ++
              "\x27 with " ++ toString stars ++ " combined stars",
            strength_raw := count }]
  else pure []

/-- `engine.py` lines 40-51: one signal per new repo that has topics or a
description; `repo["stars"]` and `repo["name"]` are required keys. -/
def newRepoSignal (repo : Repo) : Except PyErr (List Signal) :=
  let topics := repo.topics.getD []
  let desc := repo.description.getD ""
  if topics ≠ [] ∨ desc ≠ "" then do
    let stars ← req "stars" repo.stars
    let name ← req "name" repo.name
    pure [{ source := "github", type := "new_repo",
            topic := if topics ≠ [] then joinSep ", " (topics.take 3) else strTake desc 60,
            text := "New repo: " ++ name ++ " (" ++ toString stars ++ " stars) — " ++
              strTake desc 80,
            strength_raw := max stars 1 }]
  else pure []

/-- `engine.py` lines 54-62: one signal per trending repo (first five). -/
def trendingSignal (repo : Repo) : Except PyErr (List Signal) := do
  let stars ← req "stars" repo.stars
  let name ← req "name" repo.name
  pure [{ source := "github", type := "trending",
          topic := joinSep ", " ((repo.topics.getD []).take 3),
          text := "Trending: " ++ name ++ " (" ++ toString stars ++ " stars)",
          strength_raw := stars }]

/-- `extract_github_signals` (`engine.py` lines 21-64). -/
def extract_github_signals (github : GithubPayload) : Except PyErr (List Signal) := do
  let s1 ← collectME probeSignal (github.narrative_probes.getD [])
  let s2 ← collectME newRepoSignal (github.new_repos.getD [])
  let s3 ← collectME trendingSignal ((github.trending_repos.getD []).take 5)
  pure (s1 ++ s2 ++ s3)

/-! ### DeFi payload and `extract_defi_signals` -/

/-- `defi["tvl"]`. -/
structure TvlRec where
  current_usd : Option ℚ
  change_14d_pct : Option ℚ
deriving DecidableEq

/-- One entry of `defi["protocols"]`. -/
structure ProtocolRec where
  name : Option String
  category : Option String
  tvl_usd : Option ℚ
  change_7d_pct : Option ℚ
deriving DecidableEq

/-- One entry of `defi["fees"]`. -/
structure FeeRec where
  name : Option String
  fees_24h : Option ℚ
  change_7d_pct : Option ℚ
deriving DecidableEq

/-- One entry of `defi["stablecoins"]["assets"]`. -/
structure StableAsset where
  symbol : Option String
  mcap_usd : Option ℚ
deriving DecidableEq

/-- `defi["stablecoins"]`. -/
structure StablesRec where
  total_mcap_usd : Option ℚ
  assets : Option (List StableAsset)
deriving DecidableEq

/-- One entry of `defi["dex"]["top_dexes"]`. -/
structure DexEntry where
  name : Option String
deriving DecidableEq

/-- `defi["dex"]`. -/
structure DexRec where
  total_24h_usd : Option ℚ
  change_7d_pct : Option ℚ
  top_dexes : Option (List DexEntry)
deriving DecidableEq

/-- The DeFi collector payload. -/
structure DefiPayload where
  tvl : Option TvlRec
  protocols : Option (List ProtocolRec)
  fees : Option (List FeeRec)
  stablecoins : Option StablesRec
  dex : Option DexRec
deriving DecidableEq

/-- Per-category accumulator of `cat_data` (`engine.py` lines 89-97). -/
structure CatAcc where
  tvl : ℚ
  changes : List ℚ
  protocols : List String
deriving DecidableEq

/-- The `change_7d_pct` values appended to `cat_data[cat]["changes"]`:
`if c7 := p.get("change_7d_pct")` is Python truthiness, so a missing or
zero change contributes nothing. -/
def chgOf (p : ProtocolRec) : List ℚ :=
  match p.change_7d_pct with
  | some c => if c = 0 then [] else [c]
  | none => []

/-- Add one protocol to the insertion-ordered category map. -/
def addToCat (cat : String) (dtvl : ℚ) (dchg : List ℚ) (pname : String) :
    List (String × CatAcc) → List (String × CatAcc)
  | [] => [(cat, ⟨dtvl, dchg, [pname]⟩)]
  | (c, a) :: rest =>
    if c = cat then (c, ⟨a.tvl + dtvl, a.changes ++ dchg, a.protocols ++ [pname]⟩) :: rest
    else (c, a) :: addToCat cat dtvl dchg pname rest

/-- Build `cat_data` (`engine.py` lines 89-97); `p["name"]` is a required
key, `category` defaults to `"Other"`, `tvl_usd` to `0`. -/
def buildCatData : List ProtocolRec → List (String × CatAcc) →
    Except PyErr (List (String × CatAcc))
  | [], acc => .ok acc
  | p :: ps, acc => do
    let pname ← req "name" p.name
    buildCatData ps (addToCat (p.category.getD "Other") (p.tvl_usd.getD 0) (chgOf p) pname acc)

/-- Average 7d change of one category (`0` when no protocol reported a
truthy change). -/
def catAvg (a : CatAcc) : ℚ :=
  if a.changes ≠ [] then a.changes.sum / a.changes.length else 0

/-- The category signal emitted for one `cat_data` entry, if its summed
TVL exceeds five million (`engine.py` lines 99-109). -/
def categorySignal (e : String × CatAcc) : List Signal :=
  let avg := catAvg e.2
  if e.2.tvl > 5000000 then
    [{ source := "defi", type := "category", topic := e.1,
       text := e.1 ++ ": $" ++ toString (e.2.tvl / 1000000) ++ "M TVL across " ++
         toString e.2.protocols.length ++ " protocols (" ++ toString avg ++ "% avg 7d)",
       strength_raw := if avg ≠ 0 then |avg| else e.2.tvl / 1000000000 }]
  else []

/-- The protocols of one effective category
(`p.get("category", "Other")`). -/
def catProtocols (ps : List ProtocolRec) (c : String) : List ProtocolRec :=
  ps.filter fun p => p.category.getD "Other" == c

/-- Summed `tvl_usd` of one category. -/
def catTvl (ps : List ProtocolRec) (c : String) : ℚ :=
  ((catProtocols ps c).map fun p => p.tvl_usd.getD 0).sum

/-- The truthy `change_7d_pct` values of one category, in protocol order. -/
def catChanges (ps : List ProtocolRec) (c : String) : List ℚ :=
  (catProtocols ps c).flatMap chgOf

/-- The protocol names of one category (all present when the fold
succeeds). -/
def catNames (ps : List ProtocolRec) (c : String) : List String :=
  (catProtocols ps c).map fun p => p.name.getD ""

/-- Average truthy 7d change of one category (`0` when none). -/
def catAvgOf (ps : List ProtocolRec) (c : String) : ℚ :=
  if catChanges ps c ≠ [] then (catChanges ps c).sum / (catChanges ps c).length else 0

/-- Association-list lookup in `cat_data`. -/
def lookupCat (c : String) (entries : List (String × CatAcc)) : Option CatAcc :=
  (entries.find? fun e => e.1 == c).map fun e => e.2

/-- What folding `ps` into `cat_data` contributes to category `c`, given
the accumulator state for `c` before the fold. -/
def mergeAcc (o : Option CatAcc) (ps : List ProtocolRec) (c : String) : Option CatAcc :=
  match o with
  | some a =>
    some ⟨a.tvl + catTvl ps c, a.changes ++ catChanges ps c, a.protocols ++ catNames ps c⟩
  | none =>
    if catProtocols ps c = [] then none
    else some ⟨catTvl ps c, catChanges ps c, catNames ps c⟩

/-- Non-USDC/USDT stablecoin market cap (`engine.py` lines 129-132):
`s["symbol"]` is required on every asset, `s["mcap_usd"]` on those that
pass the filter. -/
def sumNonMajor : List StableAsset → Except PyErr ℚ
  | [] => .ok 0
  | s :: rest => do
    let sym ← req "symbol" s.symbol
    if sym = "USDC" ∨ sym = "USDT" then sumNonMajor rest
    else do
      let m ← req "mcap_usd" s.mcap_usd
      let r ← sumNonMajor rest
      pure (m + r)

/-- The TVL-trend section (`engine.py` lines 72-84). -/
def tvlSignals (tvl : TvlRec) : List Signal :=
  let tvl_change := tvl.change_14d_pct.getD 0
  let tvl_current := tvl.current_usd.getD 0
  if tvl_current ≠ 0 then
    [{ source := "defi", type := "tvl_trend",
       topic := "TVL " ++ (if tvl_change > 0 then "inflow" else "outflow"),
       text := "Solana TVL: $" ++ toString (tvl_current / 1000000000) ++ "B (" ++
         toString tvl_change ++ "% in 14d)",
       strength_raw := |tvl_change| }]
  else []

/-- The category-analysis section (`engine.py` lines 87-109). -/
def protocolsSignals (protocols : List ProtocolRec) : Except PyErr (List Signal) :=
  if protocols ≠ [] then do
    let catData ← buildCatData protocols []
    pure ((stableSortBy (fun a b => decide (b.2.tvl ≤ a.2.tvl)) catData).flatMap
      categorySignal)
  else pure []

/-- The fee-revenue section (`engine.py` lines 112-123). -/
def feesSignals (fees : List FeeRec) : List Signal :=
  if fees ≠ [] then
    let total := (fees.map fun f => f.fees_24h.getD 0).sum
    let growing := fees.filter fun f => f.change_7d_pct.getD 0 > 10
    [{ source := "defi", type := "fees", topic := "protocol revenue",
       text := "$" ++ toString (total / 1000) ++ "K daily protocol fees, " ++
         toString growing.length ++ " protocols with >10% weekly fee growth",
       strength_raw := total / 1000 }]
  else []

/-- The stablecoin-supply section (`engine.py` lines 126-140). -/
def stablesSignals (stables : StablesRec) : Except PyErr (List Signal) :=
  let total_stable := stables.total_mcap_usd.getD 0
  if total_stable > 1000000000 then do
    let nonMajor ← sumNonMajor (stables.assets.getD [])
    pure [{ source := "defi", type := "stablecoins", topic := "stablecoin ecosystem",
            text := "$" ++ toString (total_stable / 1000000000) ++ "B stablecoin supply, $" ++
              toString (nonMajor / 1000000) ++ "M in non-USDC/USDT stables",
            strength_raw := total_stable / 1000000000 }]
  else pure []

/-- The DEX-volume section (`engine.py` lines 143-154). -/
def dexSignals (dex : DexRec) : List Signal :=
  let dex24 := dex.total_24h_usd.getD 0
  let dex_change := dex.change_7d_pct.getD 0
  if dex24 ≠ 0 then
    [{ source := "defi", type := "dex_volume", topic := "DEX trading",
       text := "$" ++ toString (dex24 / 1000000) ++ "M daily DEX volume (" ++
         toString dex_change ++ "% WoW)",
       strength_raw := if dex_change ≠ 0 then |dex_change| else dex24 / 100000000 }]
  else []

/-- `extract_defi_signals` (`engine.py` lines 67-156). -/
def extract_defi_signals (defi : DefiPayload) : Except PyErr (List Signal) := do
  let s1 := tvlSignals (defi.tvl.getD ⟨none, none⟩)
  let s2 ← protocolsSignals (defi.protocols.getD [])
  let s3 := feesSignals (defi.fees.getD [])
  let s4 ← stablesSignals (defi.stablecoins.getD ⟨none, none⟩)
  let s5 := dexSignals (defi.dex.getD ⟨none, none, none⟩)
  pure (s1 ++ s2 ++ s3 ++ s4 ++ s5)

/-! ### Social payload and `extract_social_signals` -/

/-- One Reddit post. -/
structure Post where
  score : Option ℚ
  comments : Option ℚ
  title : Option String
  flair : Option String
deriving DecidableEq

/-- `social["reddit"]`. -/
structure RedditRec where
  solana : Option (List Post)
  solanadev : Option (List Post)
deriving DecidableEq

/-- One StackExchange question. -/
structure Question where
  tags : Option (List String)
deriving DecidableEq

/-- One forum thread. -/
structure ForumItem where
  title : Option String
  link : Option String
deriving DecidableEq

/-- The social collector payload. -/
structure SocialPayload where
  reddit : Option RedditRec
  stackexchange : Option (List Question)
  forum : Option (List ForumItem)
deriving DecidableEq

/-- The engagement key Python sorts Reddit posts by
(`p.get("score", 0) + p.get("comments", 0)`). -/
def engagement (p : Post) : ℚ := p.score.getD 0 + p.comments.getD 0

/-- One Reddit signal (`engine.py` lines 168-176): `post["score"]`,
`post["comments"]` and `post["title"]` are required keys. -/
def redditSignal (post : Post) : Except PyErr (List Signal) := do
  let score ← req "score" post.score
  let comments ← req "comments" post.comments
  let title ← req "title" post.title
  pure [{ source := "social", type := "reddit",
          topic := post.flair.getD "discussion",
          text := "Reddit (" ++ toString score ++ "↑, " ++ toString comments ++
            " comments): \"" ++ strTake title 80 ++ "\"",
          strength_raw := score + comments * 2 }]

/-- Increment the (insertion-ordered) count of one key, as a Python
`Counter` update does. -/
def bumpKey [DecidableEq κ] (k : κ) : List (κ × Nat) → List (κ × Nat)
  | [] => [(k, 1)]
  | (k2, c) :: rest => if k2 = k then (k2, c + 1) :: rest else (k2, c) :: bumpKey k rest

/-- Count occurrences, keys in first-seen order (a Python `Counter`). -/
def countList [DecidableEq κ] (ks : List κ) : List (κ × Nat) :=
  ks.foldl (fun acc k => bumpKey k acc) []

/-- `Counter.most_common(n)`: the `n` highest counts, stably ordered
(count descending, ties by first occurrence). -/
def mostCommon [DecidableEq κ] (n : Nat) (counts : List (κ × Nat)) : List (κ × Nat) :=
  (stableSortBy (fun a b => decide (b.2 ≤ a.2)) counts).take n

/-- The Reddit-engagement section (`engine.py` lines 164-176). -/
def redditSignals (reddit_all : List Post) : Except PyErr (List Signal) :=
  if reddit_all ≠ [] then
    collectME redditSignal
      ((stableSortBy (fun a b => decide (engagement b ≤ engagement a)) reddit_all).take 5)
  else pure []

/-- The StackExchange section (`engine.py` lines 179-193). -/
def seSignals (se : List Question) : List Signal :=
  if se ≠ [] then
    let top_tags := mostCommon 10 (countList (se.flatMap fun q => q.tags.getD []))
    if top_tags ≠ [] then
      [{ source := "social", type := "developer_questions", topic := "developer activity",
         text := toString se.length ++ " active dev questions, top topics: " ++
           joinSep ", " ((top_tags.take 5).map fun t => t.1),
         strength_raw := se.length }]
    else []
  else []

/-- The governance-forum section (`engine.py` lines 196-205). -/
def forumSignals (forum : List ForumItem) : Except PyErr (List Signal) :=
  match forum with
  | [] => pure []
  | f0 :: _ => do
    let _ ← mapME (fun f => req "title" f.title) (forum.take 5)
    let t0 ← req "title" f0.title
    pure [{ source := "social", type := "governance", topic := "governance",
            text := toString forum.length ++ " recent governance discussions: " ++
              strTake t0 60,
            strength_raw := forum.length }]

/-- `extract_social_signals` (`engine.py` lines 159-207). -/
def extract_social_signals (social : SocialPayload) : Except PyErr (List Signal) := do
  let redditRec := social.reddit.getD ⟨none, none⟩
  let s1 ← redditSignals (redditRec.solana.getD [] ++ redditRec.solanadev.getD [])
  let s2 := seSignals (social.stackexchange.getD [])
  let s3 ← forumSignals (social.forum.getD [])
  pure (s1 ++ s2 ++ s3)

/-! ### Narrative discovery (`engine.py` lines 215-354) -/

/-- The static theme catalog `KNOWN_THEMES` (`engine.py` lines 215-231). -/
def KNOWN_THEMES : List (String × List String) :=
  [("AI & Autonomous Agents",
      ["ai agent", "agent", "autonomous", "eliza", "sendai", "llm", "machine learning"]),
   ("Privacy & Confidential Transfers",
      ["privacy", "confidential", "zk proof", "shielded", "private"]),
   ("Stablecoin & PayFi Expansion",
      ["stablecoin", "payfi", "payment", "usdc", "usdt", "pyusd", "pay"]),
   ("DePIN & Physical Infrastructure",
      ["depin", "helium", "hivemapper", "render", "physical infrastructure", "iot"]),
   ("Liquid Staking & Restaking",
      ["liquid staking", "lst", "restaking", "msol", "jitosol", "bsol", "sanctum"]),
   ("Real World Assets (RWA)",
      ["rwa", "tokeniz", "real world", "securities", "equity"]),
   ("ZK Compression & Scalability",
      ["zk compression", "compressed", "light protocol", "scalab"]),
   ("MEV & Trading Infrastructure",
      ["mev", "jito", "sandwich", "frontrun", "order flow"]),
   ("Token Extensions (Token-2022)",
      ["token-2022", "token extension", "transfer hook", "interest bearing"]),
   ("Consumer Apps & Blinks",
      ["blinks", "actions", "consumer", "social commerce", "creator"]),
   ("Gaming & Entertainment",
      ["gaming", "game", "nft", "metaverse", "play"]),
   ("Infrastructure & Validators",
      ["firedancer", "validator", "alpenglow", "consensus", "finality"]),
   ("Perpetuals & Derivatives",
      ["perp", "perpetual", "futures", "options", "derivative"]),
   ("Prediction Markets",
      ["prediction", "betting", "oracle", "forecast"]),
   ("Cross-Chain & Bridges",
      ["bridge", "cross-chain", "wormhole", "layerzero", "interop"])]

/-- Python `max(values)` on a non-empty list (`0` is an unused placeholder
for the empty case, which the callers guard). -/
def pyMax : List ℚ → ℚ
  | [] => 0
  | v :: vs => vs.foldl max v

/-- Python `min(values)` on a non-empty list. -/
def pyMin : List ℚ → ℚ
  | [] => 0
  | v :: vs => vs.foldl min v

/-- `_normalize_scores` (`engine.py` lines 234-239): min-max normalize to
the 0-100 scale, or all 50.0 on an empty or constant input. -/
def _normalize_scores (values : List ℚ) : List ℚ :=
  if values = [] ∨ pyMax values = pyMin values then
    List.replicate values.length 50
  else
    values.map fun v => round1 ((v - pyMin values) / (pyMax values - pyMin values) * 100)

/-- The match text of a signal: `f"{topic} {text}".lower()`. -/
def signalText (s : Signal) : String := lowerStr (s.topic ++ " " ++ s.text)

/-- Does a signal match a theme keyword list
(`any(kw in signal_text for kw in keywords)`)? -/
def matchesTheme (kws : List String) (s : Signal) : Bool :=
  kws.any fun kw => strContains (signalText s) kw

/-- `theme_signals[name]` after Phase 1 (`engine.py` lines 250-256): the
signals matching the theme, in input order. -/
def matchedSignals (sigs : List Signal) (kws : List String) : List Signal :=
  sigs.filter (matchesTheme kws)

/-- One ranked narrative (`engine.py` builds these as dicts; the `score`
field is written by the normalization step at lines 294-298 and is `0`
before it). -/
structure Narrative where
  name : String
  raw_score : ℚ
  signal_count : Nat
  sources : List String
  source_diversity : Nat
  signals : List Signal
  discovered : Bool
  score : ℚ
deriving DecidableEq

/-- Score one catalog theme (`engine.py` lines 263-287); themes with no
matched signal are dropped.  `list(set(...))` iterates in unspecified
order in Python, so only membership and length of `sources` are
meaningful; `List.dedup` realises one such order.  `0.4` is the rational
`2/5`. -/
def catalogNarrative (sigs : List Signal) (theme : String × List String) : Option Narrative :=
  let signals := matchedSignals sigs theme.2
  if signals = [] then none
  else
    let sources := (signals.map fun s => s.source).dedup
    let raw_strengths := signals.map fun s => s.strength_raw
    let diversity_multiplier : ℚ := 1 + 2 / 5 * ((sources.length : ℚ) - 1)
    let avg_strength : ℚ :=
      if raw_strengths ≠ [] then raw_strengths.sum / raw_strengths.length else 0
    let signal_count_factor : ℚ := min ((signals.length : ℚ) / 3) 2
    some { name := theme.1,
           raw_score := avg_strength * diversity_multiplier * signal_count_factor,
           signal_count := signals.length, sources := sources,
           source_diversity := sources.length, signals := signals,
           discovered := false, score := 0 }

/-- The narrative record the `else` branch of `catalogNarrative` builds
(named for use in proofs). -/
def catalogRecord (sigs : List Signal) (theme : String × List String) : Narrative :=
  { name := theme.1,
    raw_score :=
      (if ((matchedSignals sigs theme.2).map fun s => s.strength_raw) ≠ [] then
        (((matchedSignals sigs theme.2).map fun s => s.strength_raw).sum) /
          ((((matchedSignals sigs theme.2).map fun s => s.strength_raw).length : ℕ) : ℚ)
      else 0) *
      (1 + 2 / 5 *
        (((((matchedSignals sigs theme.2).map fun s => s.source).dedup.length : ℕ) : ℚ) - 1)) *
      min (((matchedSignals sigs theme.2).length : ℚ) / 3) 2,
    signal_count := (matchedSignals sigs theme.2).length,
    sources := ((matchedSignals sigs theme.2).map fun s => s.source).dedup,
    source_diversity := ((matchedSignals sigs theme.2).map fun s => s.source).dedup.length,
    signals := matchedSignals sigs theme.2,
    discovered := false, score := 0 }

/-- The stop-word list of `_discover_unknown_themes`
(`engine.py` lines 310-320). -/
def stop_words : List String :=
  ["the", "and", "for", "with", "that", "this", "from", "have", "are", "was", "how", "can",
   "you", "your", "what", "not", "but", "has", "any", "get", "use", "new", "all", "one",
   "solana", "sol", "token", "crypto", "blockchain", "web3", "program", "account",
   "bot", "trading", "open", "source", "arbitrage", "sniper", "copy", "volume",
   "github", "com", "http", "https", "npm", "install", "run", "build", "test",
   "based", "using", "built", "made", "simple", "fast", "smart", "best", "free",
   "chain", "bitcoin", "ethereum", "wallet", "protocol", "network", "transaction",
   "contract", "swap", "dapp", "defi", "nft", "api", "sdk", "cli", "rust",
   "typescript", "javascript", "python", "anchor", "client", "server", "data",
   "price", "market", "order", "transfer", "address", "key", "sign", "hash",
   "block", "validator", "node", "stake", "reward", "mint", "burn", "supply"]

/-- Tokenize one corpus snippet: `re.findall(r"[a-z]+", text)` filtered by
the stop list and a minimum length of 3. -/
def goodWords (text : String) : List String :=
  (lowerRuns text).filter fun w => !stop_words.contains w && decide (2 < w.length)

/-- Adjacent word pairs of one snippet. -/
def bigramsOf (ws : List String) : List (String × String) := ws.zip ws.tail

/-- Words of the catalog vocabulary:
`re.findall(r"[a-z]+", kw.lower())` over every catalog keyword. -/
def all_known_keywords : List String :=
  KNOWN_THEMES.flatMap fun t => t.2.flatMap fun kw => lowerRuns (lowerStr kw)

/-- The synthetic theme built from one qualifying bigram
(`engine.py` lines 341-352). -/
def unknownTheme (bc : (String × String) × Nat) : Narrative :=
  { name := titleWord bc.1.1 ++ " " ++ titleWord bc.1.2 ++ " (Emerging)",
    raw_score := (bc.2 : ℚ) * 3,
    signal_count := bc.2,
    sources := ["text_analysis"],
    source_diversity := 1,
    signals := [{ source := "text_analysis", type := "bigram",
                  topic := bc.1.1 ++ " " ++ bc.1.2,
                  text := "Emerging topic \"" ++ bc.1.1 ++ " " ++ bc.1.2 ++ "\" appeared " ++
                    toString bc.2 ++ " times across sources",
                  strength_raw := bc.2 }],
    discovered := true, score := 0 }

/-- The bigram counter of the whole corpus, in first-seen order. -/
def bigramCounts (text_corpus : List String) : List ((String × String) × Nat) :=
  countList (text_corpus.flatMap fun t => bigramsOf (goodWords t))

/-- The `significant` list (`engine.py` line 330): of the 30 most frequent
bigrams, those occurring at least 3 times, count-descending. -/
def significantBigrams (text_corpus : List String) : List ((String × String) × Nat) :=
  (mostCommon 30 (bigramCounts text_corpus)).filter fun bc => decide (3 ≤ bc.2)

/-- The qualifying bigrams of a corpus: significant (top-30, count at
least 3) and with both words outside the catalog vocabulary — the
`unknown` list of `_discover_unknown_themes`. -/
def qualifyingBigrams (text_corpus : List String) : List ((String × String) × Nat) :=
  (significantBigrams text_corpus).filter fun bc =>
    !all_known_keywords.contains bc.1.1 && !all_known_keywords.contains bc.1.2

/-- `_discover_unknown_themes` (`engine.py` lines 304-354).  The
`all_signals` argument is accepted and ignored, as in the source. -/
def _discover_unknown_themes (text_corpus : List String) (_all_signals : List Signal) :
    List Narrative :=
  if text_corpus = [] then []
  else ((qualifyingBigrams text_corpus).map unknownTheme).take 3

/-- Write the normalized scores back onto the narratives
(`engine.py` lines 294-298). -/
def updateScores (ns : List Narrative) : List Narrative :=
  if ns ≠ [] then
    (ns.zip (_normalize_scores (ns.map fun n => n.raw_score))).map fun p =>
      { p.1 with score := p.2 }
  else ns

/-- `discover_narratives` (`engine.py` lines 242-301). -/
def discover_narratives (all_signals : List Signal) (text_corpus : List String) :
    List Narrative :=
  let catalog := KNOWN_THEMES.filterMap (catalogNarrative all_signals)
  let narratives := catalog ++ _discover_unknown_themes text_corpus all_signals
  stableSortBy (fun a b => decide (b.score ≤ a.score)) (updateScores narratives)

/-! ### Snapshots and deltas (`snapshots.py`) -/

/-- One narrative summary inside a persisted snapshot. -/
structure SnapNarr where
  name : String
  score : ℚ
deriving DecidableEq

/-- A previous snapshot as loaded from disk (`previous.get("narratives", [])`
tolerates a record without the key). -/
structure Snapshot where
  narratives : Option (List SnapNarr)
deriving DecidableEq

/-- One delta record of `compute_deltas`. -/
structure Delta where
  name : String
  delta : String
  score_change : ℚ
deriving DecidableEq

/-- The previous score of a name: Python builds `prev_scores` as a dict
comprehension, so a duplicated name keeps its last score. -/
def prevScore (ns : List SnapNarr) (name : String) : Option ℚ :=
  (ns.reverse.find? fun n => n.name == name).map fun n => n.score

/-- The threshold classification of `compute_deltas`
(`snapshots.py` lines 69-74). -/
def classifyChange (change : ℚ) : String :=
  if change > 5 then "rising" else if change < -5 then "fading" else "stable"

/-- `compute_deltas` (`snapshots.py` lines 53-77). -/
def compute_deltas (current : List Narrative) (previous : Option Snapshot) : List Delta :=
  match previous with
  | none => current.map fun n => { name := n.name, delta := "new", score_change := 0 }
  | some prev =>
    let prevNs := prev.narratives.getD []
    current.map fun n =>
      match prevScore prevNs n.name with
      | none => { name := n.name, delta := "new", score_change := n.score }
      | some p =>
        { name := n.name, delta := classifyChange (n.score - p),
          score_change := round1 (n.score - p) }

/-! ### Build idea generation (`engine.py` lines 359-512) -/

/-- The fixed prose fields of one idea template. -/
structure IdeaTemplate where
  title : String
  description : String
  solana_stack : String
  target_users : String
deriving DecidableEq

/-- One generated idea: a template plus the narrative tag fields. -/
structure Idea where
  title : String
  description : String
  solana_stack : String
  target_users : String
  tied_narrative : String
  narrative_score : ℚ
  signal_count : Nat
deriving DecidableEq

/-- The live figures interpolated into the templates, computed at the top
of `generate_ideas` (lines 365-375). -/
structure IdeaContext where
  top_protocols : List String
  top_dexes : List String
  tvl_str : String
  stable_str : String
  dex_vol : String
  stable_symbols : List String
deriving DecidableEq

/-- `idea_templates` (`engine.py` lines 378-451), with the context figures
interpolated as the dict literal is built. -/
def idea_templates (ctx : IdeaContext) : List (String × List IdeaTemplate) :=
  [("AI & Autonomous Agents",
    [{ title := "Multi-Agent DeFi Strategy Orchestrator",
       description := "A framework where specialized AI agents (risk assessor, yield optimizer, rebalancer) coordinate to manage DeFi positions across " ++ joinSep ", " (ctx.top_protocols.take 3) ++ ". With " ++ ctx.tvl_str ++ " Solana TVL and " ++ ctx.dex_vol ++ " daily DEX volume, autonomous portfolio management has a massive addressable market. Each agent operates independently but shares a common state via on-chain accounts.",
       solana_stack := "Anchor programs for agent state, Jupiter CPI for swaps, Pyth for price feeds, Jito bundles for MEV-protected execution",
       target_users := "DeFi power users, fund managers, DAOs with treasuries" }]),
   ("Privacy & Confidential Transfers",
    [{ title := "Privacy-First Payroll & Treasury Tool",
       description := "Enterprise treasury management on Solana using Token-2022 confidential transfers. Companies can pay salaries, manage budgets, and settle invoices without revealing amounts on-chain. With " ++ ctx.stable_str ++ " in stablecoins on Solana, the payment infrastructure exists — what\x27s missing is the privacy layer that enterprises require.",
       solana_stack := "Token-2022 confidential transfer extension, SPL Token program, Solana Pay for merchant settlement",
       target_users := "Companies, DAOs, payroll providers, accounting firms" }]),
   ("Stablecoin & PayFi Expansion",
    [{ title := "Multi-Stablecoin Payment Router",
       description := "An intelligent payment routing layer that accepts any stablecoin (" ++ joinSep ", " ctx.stable_symbols ++ ") and settles in the recipient\x27s preferred denomination. With " ++ ctx.stable_str ++ " stablecoin supply diversifying beyond USDC/USDT, merchants need a unified acceptance layer. Auto-routes through " ++ ctx.top_dexes.headD "Jupiter" ++ " for optimal conversion.",
       solana_stack := "Jupiter swap CPI, Solana Pay protocol, Token-2022 transfer hooks for automatic conversion",
       target_users := "E-commerce merchants, POS systems, cross-border payment platforms" }]),
   ("DePIN & Physical Infrastructure",
    [{ title := "DePIN Revenue Analytics & Staking Optimizer",
       description := "A unified dashboard and optimization engine across all Solana DePIN networks (Helium, Hivemapper, Render). Tracks node economics, reward rates, and ROI. With DePIN generating $150M+ monthly revenue, operators need data-driven tools to allocate capital across networks for maximum yield.",
       solana_stack := "On-chain reads from Helium/Render programs, Pyth for token pricing, staking optimization via SPL Stake Pool",
       target_users := "DePIN node operators, hardware investors, yield analysts" }]),
   ("Liquid Staking & Restaking",
    [{ title := "LST Yield Aggregator with Auto-Routing",
       description := "One-click SOL staking that automatically routes to the highest-yield liquid staking token (mSOL, jitoSOL, bSOL) via Sanctum, then deploys the LST into the best-performing lending/LP position across " ++ joinSep ", " (ctx.top_protocols.take 3) ++ ". Rebalances weekly based on yield changes.",
       solana_stack := "Sanctum router for LST swaps, CPI into lending protocols (Kamino, MarginFi), Jito stake pool",
       target_users := "Passive SOL holders, institutional stakers" }]),
   ("Real World Assets (RWA)",
    [{ title := "RWA Compliance Toolkit for Token-2022",
       description := "A no-code platform for issuing compliant tokenized securities on Solana using Token-2022 extensions. Includes KYC-gated transfers (transfer hooks), dividend distribution, and regulatory reporting. With " ++ ctx.tvl_str ++ " DeFi TVL proving Solana\x27s financial infrastructure, RWA issuance is the next frontier.",
       solana_stack := "Token-2022: transfer hooks for KYC gates, permanent delegate for freeze authority, metadata extension for asset details",
       target_users := "Asset managers, real estate tokenizers, fund administrators" }]),
   ("ZK Compression & Scalability",
    [{ title := "Compressed Token Airdrop & Distribution Platform",
       description := "Mass token distribution at 1/1000th the cost using ZK Compression. Enables airdrops to millions of wallets, loyalty reward programs, and community token distributions that were previously cost-prohibitive. A single compressed airdrop to 1M wallets costs ~$50 vs ~$50,000 with regular accounts.",
       solana_stack := "Light Protocol ZK Compression, compressed token accounts, concurrent Merkle trees",
       target_users := "Token projects launching airdrops, loyalty programs, marketing campaigns" }]),
   ("Infrastructure & Validators",
    [{ title := "Firedancer Migration Health Monitor",
       description := "A real-time dashboard tracking Firedancer adoption across the validator set — stake distribution, block production quality, skip rates, and latency improvements. With Firedancer crossing 20% stake and Alpenglow promising 150ms finality, validators and delegators need visibility into the transition\x27s impact on network performance.",
       solana_stack := "Solana RPC for validator metrics, gossip protocol monitoring, epoch-level performance tracking",
       target_users := "Validators, stake delegators, infrastructure teams" }]),
   ("Perpetuals & Derivatives",
    [{ title := "On-Chain Derivatives Analytics Terminal",
       description := "A Bloomberg-style terminal for Solana perpetuals and options. Aggregates data from Drift, Zeta, Phoenix — showing funding rates, open interest, liquidation levels, and basis trades. With " ++ ctx.dex_vol ++ " daily DEX volume driving demand for sophisticated trading tools, there\x27s a gap for on-chain derivatives intelligence.",
       solana_stack := "Read Drift/Zeta program accounts, Pyth for mark prices, Clockwork for scheduled data snapshots",
       target_users := "Professional traders, market makers, hedge funds" }])]

/-- The fixed second-pass ordering (`engine.py` lines 490-496). -/
def priority_order : List String :=
  ["AI & Autonomous Agents", "Privacy & Confidential Transfers",
   "Stablecoin & PayFi Expansion", "DePIN & Physical Infrastructure",
   "Liquid Staking & Restaking", "Real World Assets (RWA)",
   "ZK Compression & Scalability", "Infrastructure & Validators",
   "Perpetuals & Derivatives"]

/-- `idea_templates[key]` (`[]` when absent, which the passes guard). -/
def lookupTemplates (ts : List (String × List IdeaTemplate)) (key : String) :
    List IdeaTemplate :=
  ((ts.find? fun e => e.1 == key).map fun e => e.2).getD []

/-- The fuzzy-match vocabulary of a template key: lowercased
whitespace-separated words longer than 3 characters (line 473). -/
def keyWords (key : String) : List String :=
  (splitWs (lowerStr key)).filter fun w => decide (3 < w.length)

/-- Fuzzy match (line 474): some key word occurs inside the lowercased
narrative name. -/
def fuzzyHit (name : String) (key : String) : Bool :=
  (keyWords key).any fun w => strContains (lowerStr name) w

/-- The template key matched by one narrative name: exact first
(lines 463-467), else the first fuzzy hit (lines 470-476). -/
def matchKey (ts : List (String × List IdeaTemplate)) (name : String) : Option String :=
  match ts.find? fun e => e.1 == name with
  | some e => some e.1
  | none => (ts.find? fun e => fuzzyHit name e.1).map fun e => e.1

/-- Instantiate templates with the narrative tag fields (lines 480-486). -/
def renderIdeas (tpls : List IdeaTemplate) (tied : String) (score : ℚ) (cnt : Nat) :
    List Idea :=
  tpls.map fun t =>
    { title := t.title, description := t.description, solana_stack := t.solana_stack,
      target_users := t.target_users, tied_narrative := tied,
      narrative_score := score, signal_count := cnt }

/-- First pass of `generate_ideas` (lines 453-486): match narratives to
templates in rank order, consuming each template at most once, stopping
once five ideas exist. -/
def firstPass (ts : List (String × List IdeaTemplate)) :
    List Narrative → List Idea → List String → List Idea × List String
  | [], ideas, used => (ideas, used)
  | n :: rest, ideas, used =>
    if 5 ≤ ideas.length then (ideas, used)
    else
      match matchKey ts n.name with
      | some key =>
        if key ∈ used then firstPass ts rest ideas used
        else
          firstPass ts rest
            (ideas ++ renderIdeas (lookupTemplates ts key) n.name n.score n.signal_count)
            (used ++ [key])
      | none => firstPass ts rest ideas used

/-- Second pass of `generate_ideas` (lines 489-510): fill remaining slots
from `priority_order`, tagging each idea with the priority key and with
the matching ranked narrative when one exists. -/
def secondPass (ts : List (String × List IdeaTemplate)) (narratives : List Narrative) :
    List String → List Idea → List String → List Idea × List String
  | [], ideas, used => (ideas, used)
  | key :: rest, ideas, used =>
    if key ∉ used ∧ (ts.find? fun e => e.1 == key).isSome then
      let tied := narratives.find? fun n => n.name == key
      let ideas2 := ideas ++ renderIdeas (lookupTemplates ts key) key
        (match tied with | some n => n.score | none => 0)
        (match tied with | some n => n.signal_count | none => 0)
      if 5 ≤ ideas2.length then (ideas2, used ++ [key])
      else secondPass ts narratives rest ideas2 (used ++ [key])
    else secondPass ts narratives rest ideas used

/-- `top_protocols` (`engine.py` line 370): names of the first five
protocols, or a fixed default. -/
def topProtocolNames (protocols : List ProtocolRec) : Except PyErr (List String) :=
  if protocols ≠ [] then mapME (fun p => req "name" p.name) (protocols.take 5)
  else pure ["Jupiter", "Raydium"]

/-- `top_fee_earners` (`engine.py` line 371): computed (and able to raise)
although never used afterwards. -/
def topFeeEarnerNames (fees : List FeeRec) : Except PyErr (List String) :=
  if fees ≠ [] then mapME (fun f => req "name" f.name) (fees.take 3)
  else pure ["Jupiter", "Raydium"]

/-- `top_dexes` (`engine.py` line 372). -/
def topDexNames (dex : DexRec) : Except PyErr (List String) :=
  if dex.top_dexes.getD [] ≠ [] then
    mapME (fun e => req "name" e.name) ((dex.top_dexes.getD []).take 3)
  else pure ["Jupiter"]

/-- `generate_ideas` (`engine.py` lines 359-512). -/
def generate_ideas (narratives : List Narrative) (defi_data : DefiPayload) :
    Except PyErr (List Idea) := do
  let protocols := defi_data.protocols.getD []
  let fees := defi_data.fees.getD []
  let dex := defi_data.dex.getD ⟨none, none, none⟩
  let stables := defi_data.stablecoins.getD ⟨none, none⟩
  let top_protocols ← topProtocolNames protocols
  let _top_fee_earners ← topFeeEarnerNames fees
  let top_dexes ← topDexNames dex
  let tvl_str := "$" ++
    toString (round1 ((defi_data.tvl.getD ⟨none, none⟩).current_usd.getD 0 / 1000000000)) ++ "B"
  let stable_str := "$" ++ toString (round1 (stables.total_mcap_usd.getD 0 / 1000000000)) ++ "B"
  let dex_vol := "$" ++ toString (pyRound (dex.total_24h_usd.getD 0 / 1000000)) ++ "M"
  let stable_symbols ← mapME (fun s => req "symbol" s.symbol) ((stables.assets.getD []).take 4)
  let ts := idea_templates
    ⟨top_protocols, top_dexes, tvl_str, stable_str, dex_vol, stable_symbols⟩
  let fp := firstPass ts narratives [] []
  let sp := if fp.1.length < 5 then secondPass ts narratives priority_order fp.1 fp.2 else fp
  pure (sp.1.take 5)

/-! ### Well-formedness of payloads

The fields the extractors read with Python `d[key]` subscripts; a payload
whose records carry them makes every normalizer return without raising. -/

/-- Required keys of the GitHub payload. -/
@[reducible] def WFGithub (g : GithubPayload) : Prop :=
  (∀ p ∈ g.narrative_probes.getD [], p.query.isSome) ∧
  (∀ r ∈ g.new_repos.getD [], r.stars.isSome ∧ r.name.isSome) ∧
  (∀ r ∈ g.trending_repos.getD [], r.stars.isSome ∧ r.name.isSome)

/-- Required keys of the DeFi payload (for `extract_defi_signals`). -/
@[reducible] def WFDefi (d : DefiPayload) : Prop :=
  (∀ p ∈ d.protocols.getD [], p.name.isSome) ∧
  (∀ s ∈ (d.stablecoins.getD ⟨none, none⟩).assets.getD [], s.symbol.isSome ∧ s.mcap_usd.isSome)

/-- Required keys of the social payload. -/
@[reducible] def WFSocial (s : SocialPayload) : Prop :=
  (∀ p ∈ (s.reddit.getD ⟨none, none⟩).solana.getD [] ++
      (s.reddit.getD ⟨none, none⟩).solanadev.getD [],
    p.score.isSome ∧ p.comments.isSome ∧ p.title.isSome) ∧
  (∀ f ∈ s.forum.getD [], f.title.isSome)

/-- Required keys of the DeFi payload for `generate_ideas`. -/
@[reducible] def WFIdeas (d : DefiPayload) : Prop :=
  (∀ p ∈ (d.protocols.getD []).take 5, p.name.isSome) ∧
  (∀ f ∈ (d.fees.getD []).take 3, f.name.isSome) ∧
  (∀ e ∈ ((d.dex.getD ⟨none, none, none⟩).top_dexes.getD []).take 3, e.name.isSome) ∧
  (∀ s ∈ ((d.stablecoins.getD ⟨none, none⟩).assets.getD []).take 4, s.symbol.isSome)

/-- The two-narrative input of the C1 witness. -/
def c1Current : List Narrative :=
  [{ name := "A", raw_score := 0, signal_count := 0, sources := [],
     source_diversity := 0, signals := [], discovered := false, score := 80 },
   { name := "B", raw_score := 0, signal_count := 0, sources := [],
     source_diversity := 0, signals := [], discovered := false, score := 50 }]

/-- The corpus of the C6 witness: ten distinct bigrams, each occurring
three times, none of whose words belong to the catalog vocabulary. -/
def c6corpus : List String :=
  (List.replicate 3 "alpha beta") ++ (List.replicate 3 "gamma delta") ++
  (List.replicate 3 "omega sigma") ++ (List.replicate 3 "zeta theta") ++
  (List.replicate 3 "kappa lambda") ++ (List.replicate 3 "indigo violet") ++
  (List.replicate 3 "maroon beige") ++ (List.replicate 3 "teal olive") ++
  (List.replicate 3 "coral amber") ++ (List.replicate 3 "ochre mauve")

/-! ## Basic lemmas -/

theorem ratFloor_eq_floor (q : ℚ) : ratFloor q = ⌊q⌋ := by
  rw [ratFloor, Int.fdiv_eq_ediv _ (by positivity : (0 : ℤ) ≤ (q.den : ℤ))]
  conv_rhs => rw [← Rat.num_div_den q]
  rw [Rat.floor_intCast_div_natCast]

theorem pyRound_mono {p q : ℚ} (h : p ≤ q) : pyRound p ≤ pyRound q := by
  unfold pyRound
  rw [ratFloor_eq_floor, ratFloor_eq_floor]
  exact Int.floor_mono (by linarith)

theorem round1_mono {p q : ℚ} (h : p ≤ q) : round1 p ≤ round1 q := by
  unfold round1
  have h10 : pyRound (p * 10) ≤ pyRound (q * 10) := pyRound_mono (by linarith)
  have h10q : ((pyRound (p * 10) : ℤ) : ℚ) ≤ ((pyRound (q * 10) : ℤ) : ℚ) := by
    exact_mod_cast h10
  linarith

theorem round1_zero : round1 0 = 0 := by decide

theorem round1_hundred : round1 100 = 100 := by decide

theorem round1_bounds {x : ℚ} (h0 : 0 ≤ x) (h1 : x ≤ 100) :
    0 ≤ round1 x ∧ round1 x ≤ 100 := by
  constructor
  · have := round1_mono h0; rwa [round1_zero] at this
  · have := round1_mono h1; rwa [round1_hundred] at this

theorem insertLe_perm (le : α → α → Bool) (x : α) (l : List α) :
    List.Perm (insertLe le x l) (x :: l) := by
  induction l with
  | nil => exact List.Perm.refl _
  | cons y ys ih =>
    unfold insertLe
    by_cases h : le x y
    · simp [h]
    · simp only [h, Bool.false_eq_true, if_false]
      exact (List.Perm.cons y ih).trans (List.Perm.swap x y ys)

theorem stableSortBy_perm (le : α → α → Bool) (l : List α) :
    List.Perm (stableSortBy le l) l := by
  induction l with
  | nil => exact List.Perm.refl _
  | cons a rest ih =>
    exact (insertLe_perm le a (stableSortBy le rest)).trans (List.Perm.cons a ih)

theorem mem_stableSortBy_iff (le : α → α → Bool) (l : List α) (x : α) :
    x ∈ stableSortBy le l ↔ x ∈ l :=
  (stableSortBy_perm le l).mem_iff

theorem mem_insertLe_iff (le : α → α → Bool) (x y : α) (l : List α) :
    y ∈ insertLe le x l ↔ y = x ∨ y ∈ l := by
  rw [(insertLe_perm le x l).mem_iff, List.mem_cons]

theorem pairwise_insertLe {le : α → α → Bool}
    (htot : ∀ a b, le a b = true ∨ le b a = true)
    (htr : ∀ a b c, le a b = true → le b c = true → le a c = true)
    (x : α) {l : List α} (h : l.Pairwise fun a b => le a b = true) :
    (insertLe le x l).Pairwise fun a b => le a b = true := by
  induction l with
  | nil => simp [insertLe]
  | cons y ys ih =>
    rcases List.pairwise_cons.mp h with ⟨hy, hys⟩
    unfold insertLe
    by_cases hxy : le x y
    · simp only [hxy, if_true]
      refine List.pairwise_cons.mpr ⟨?_, h⟩
      intro z hz
      rcases List.mem_cons.mp hz with hzy | hzys
      · exact hzy ▸ hxy
      · exact htr x y z hxy (hy z hzys)
    · simp only [hxy, Bool.false_eq_true, if_false]
      refine List.pairwise_cons.mpr ⟨?_, ih hys⟩
      intro z hz
      rcases (mem_insertLe_iff le x z ys).mp hz with hzx | hzys
      · subst hzx
        rcases htot z y with hc | hc
        · exact absurd hc hxy
        · exact hc
      · exact hy z hzys

theorem pairwise_stableSortBy {le : α → α → Bool}
    (htot : ∀ a b, le a b = true ∨ le b a = true)
    (htr : ∀ a b c, le a b = true → le b c = true → le a c = true)
    (l : List α) :
    (stableSortBy le l).Pairwise fun a b => le a b = true := by
  induction l with
  | nil => simp [stableSortBy]
  | cons a rest ih => exact pairwise_insertLe htot htr a ih

theorem except_isOk_iff {ε α : Type} (e : Except ε α) :
    e.isOk = true ↔ ∃ a, e = .ok a := by
  cases e with
  | ok a => simp [Except.isOk, Except.toBool]
  | error e => simp [Except.isOk, Except.toBool]

theorem except_bind_ok {ε α β : Type} (a : α) (f : α → Except ε β) :
    (Except.ok a >>= f) = f a := rfl

theorem except_bind_error {ε α β : Type} (e : ε) (f : α → Except ε β) :
    ((Except.error e : Except ε α) >>= f) = Except.error e := rfl

theorem req_isOk {α : Type} (k : String) {o : Option α} (h : o.isSome) :
    ∃ a, req k o = .ok a := by
  cases o with
  | some a => exact ⟨a, rfl⟩
  | none => simp [Option.isSome] at h

theorem collectME_isOk {f : α → Except PyErr (List Signal)} {l : List α}
    (h : ∀ x ∈ l, ∃ ys, f x = .ok ys) : ∃ out, collectME f l = .ok out := by
  induction l with
  | nil => exact ⟨[], rfl⟩
  | cons x xs ih =>
    obtain ⟨ys, hys⟩ := h x (List.mem_cons_self x xs)
    obtain ⟨out, hout⟩ := ih fun a ha => h a (List.mem_cons_of_mem x ha)
    exact ⟨ys ++ out, by simp [collectME, hys, hout, except_bind_ok]⟩

theorem mapME_isOk {α β : Type} {f : α → Except PyErr β} {l : List α}
    (h : ∀ x ∈ l, ∃ y, f x = .ok y) : ∃ out, mapME f l = .ok out := by
  induction l with
  | nil => exact ⟨[], rfl⟩
  | cons x xs ih =>
    obtain ⟨y, hy⟩ := h x (List.mem_cons_self x xs)
    obtain ⟨out, hout⟩ := ih fun a ha => h a (List.mem_cons_of_mem x ha)
    exact ⟨y :: out, by simp [mapME, hy, hout, except_bind_ok]⟩

/-! ## C1 — delta classification with no previous snapshot -/

/-- C1: with no previous snapshot, `compute_deltas` classifies every
current narrative as `new` — but, contrary to the claim, its
`score_change` is `0`, not the current score.  Counterexample: a single
narrative with score 80 yields `score_change = 0`, not `80`. -/
theorem C1_counterexample :
    compute_deltas
        [{ name := "A", raw_score := 0, signal_count := 0, sources := [],
           source_diversity := 0, signals := [], discovered := false, score := 80 }] none =
      [{ name := "A", delta := "new", score_change := 0 }] ∧
    compute_deltas
        [{ name := "A", raw_score := 0, signal_count := 0, sources := [],
           source_diversity := 0, signals := [], discovered := false, score := 80 }] none ≠
      [{ name := "A", delta := "new", score_change := 80 }] := by
  constructor
  · decide
  · decide

/-- C1 (amended): with no previous snapshot, every current narrative is
classified `new` with `score_change = 0`. -/
theorem C1_no_previous :
    ∀ (current : List Narrative) (i : ℕ) (n : Narrative),
      current[i]? = some n →
      (compute_deltas current none).length = current.length ∧
      (compute_deltas current none)[i]? =
        some { name := n.name, delta := "new", score_change := 0 } := by
  intro current i n h
  constructor
  · simp [compute_deltas]
  · simp [compute_deltas, List.getElem?_map, h]

/-- Witness for C1 (amended) at a concrete two-narrative input. -/
theorem C1_witness :
    c1Current[1]? =
      some { name := "B", raw_score := 0, signal_count := 0, sources := [],
             source_diversity := 0, signals := [], discovered := false, score := 50 } ∧
    (compute_deltas c1Current none).length = c1Current.length ∧
    (compute_deltas c1Current none)[1]? =
      some { name := "B", delta := "new", score_change := 0 } := by
  refine ⟨by decide, ?_⟩
  exact C1_no_previous c1Current 1
    { name := "B", raw_score := 0, signal_count := 0, sources := [],
      source_diversity := 0, signals := [], discovered := false, score := 50 } (by decide)

/-! ## C3 — min-max normalization -/

theorem foldl_max_init (v : ℚ) (l : List ℚ) : v ≤ l.foldl max v := by
  induction l generalizing v with
  | nil => exact le_refl v
  | cons a as ih => exact le_trans (le_max_left v a) (ih (max v a))

theorem le_foldl_max {x : ℚ} (v : ℚ) {l : List ℚ} (hx : x ∈ l) : x ≤ l.foldl max v := by
  induction l generalizing v with
  | nil => cases hx
  | cons a as ih =>
    rcases List.mem_cons.mp hx with rfl | hmem
    · exact le_trans (le_max_right v x) (foldl_max_init _ as)
    · exact ih (max v a) hmem

theorem foldl_max_cases (v : ℚ) (l : List ℚ) : l.foldl max v = v ∨ l.foldl max v ∈ l := by
  induction l generalizing v with
  | nil => exact Or.inl rfl
  | cons a as ih =>
    rcases ih (max v a) with hcase | hcase
    · rcases max_cases v a with ⟨he, _⟩ | ⟨he, _⟩
      · exact Or.inl (by rw [List.foldl_cons, hcase, he])
      · exact Or.inr (by rw [List.foldl_cons, hcase, he]; exact List.mem_cons_self a as)
    · exact Or.inr (List.mem_cons_of_mem a hcase)

theorem foldl_min_init (v : ℚ) (l : List ℚ) : l.foldl min v ≤ v := by
  induction l generalizing v with
  | nil => exact le_refl v
  | cons a as ih => exact le_trans (ih (min v a)) (min_le_left v a)

theorem foldl_min_le {x : ℚ} (v : ℚ) {l : List ℚ} (hx : x ∈ l) : l.foldl min v ≤ x := by
  induction l generalizing v with
  | nil => cases hx
  | cons a as ih =>
    rcases List.mem_cons.mp hx with rfl | hmem
    · exact le_trans (foldl_min_init _ as) (min_le_right v x)
    · exact ih (min v a) hmem

theorem foldl_min_cases (v : ℚ) (l : List ℚ) : l.foldl min v = v ∨ l.foldl min v ∈ l := by
  induction l generalizing v with
  | nil => exact Or.inl rfl
  | cons a as ih =>
    rcases ih (min v a) with hcase | hcase
    · rcases min_cases v a with ⟨he, _⟩ | ⟨he, _⟩
      · exact Or.inl (by rw [List.foldl_cons, hcase, he])
      · exact Or.inr (by rw [List.foldl_cons, hcase, he]; exact List.mem_cons_self a as)
    · exact Or.inr (List.mem_cons_of_mem a hcase)

theorem pyMax_mem {l : List ℚ} (h : l ≠ []) : pyMax l ∈ l := by
  cases l with
  | nil => exact absurd rfl h
  | cons v vs =>
    rcases foldl_max_cases v vs with hcase | hcase
    · rw [pyMax, hcase]; exact List.mem_cons_self v vs
    · exact List.mem_cons_of_mem v hcase

theorem pyMin_mem {l : List ℚ} (h : l ≠ []) : pyMin l ∈ l := by
  cases l with
  | nil => exact absurd rfl h
  | cons v vs =>
    rcases foldl_min_cases v vs with hcase | hcase
    · rw [pyMin, hcase]; exact List.mem_cons_self v vs
    · exact List.mem_cons_of_mem v hcase

theorem le_pyMax_of_mem {l : List ℚ} {x : ℚ} (hx : x ∈ l) : x ≤ pyMax l := by
  cases l with
  | nil => cases hx
  | cons v vs =>
    rcases List.mem_cons.mp hx with rfl | hmem
    · exact foldl_max_init x vs
    · exact le_foldl_max v hmem

theorem pyMin_le_of_mem {l : List ℚ} {x : ℚ} (hx : x ∈ l) : pyMin l ≤ x := by
  cases l with
  | nil => cases hx
  | cons v vs =>
    rcases List.mem_cons.mp hx with rfl | hmem
    · exact foldl_min_init x vs
    · exact foldl_min_le v hmem

theorem pyMax_eq_pyMin_iff {l : List ℚ} (h : l ≠ []) :
    pyMax l = pyMin l ↔ ∀ x ∈ l, ∀ y ∈ l, x = y := by
  constructor
  · intro he x hx y hy
    have h1 := pyMin_le_of_mem hx
    have h2 := le_pyMax_of_mem hx
    have h3 := pyMin_le_of_mem hy
    have h4 := le_pyMax_of_mem hy
    rw [he] at h2 h4
    linarith
  · intro ha
    exact ha _ (pyMax_mem h) _ (pyMin_mem h)

/-- C3: on a non-empty list of raw scores, `_normalize_scores` returns all
50.0 when every value is equal (including singletons); otherwise each
output is `(v − min) / (max − min) × 100` rounded to one decimal, every
output lies in [0, 100], positions holding the minimum map to 0.0 and
positions holding the maximum map to 100.0, and both 0 and 100 occur in
the output. -/
theorem C3_normalize :
    ∀ (l : List ℚ), l ≠ [] →
      ((∀ x ∈ l, ∀ y ∈ l, x = y) → _normalize_scores l = List.replicate l.length 50) ∧
      (¬ (∀ x ∈ l, ∀ y ∈ l, x = y) →
        (_normalize_scores l).length = l.length ∧
        (∀ (i : ℕ) (n : ℚ), l[i]? = some n →
          (_normalize_scores l)[i]? =
            some (round1 ((n - pyMin l) / (pyMax l - pyMin l) * 100))) ∧
        (∀ q ∈ _normalize_scores l, 0 ≤ q ∧ q ≤ 100) ∧
        (∀ (i : ℕ) (n : ℚ), l[i]? = some n → n = pyMin l →
          (_normalize_scores l)[i]? = some 0) ∧
        (∀ (i : ℕ) (n : ℚ), l[i]? = some n → n = pyMax l →
          (_normalize_scores l)[i]? = some 100) ∧
        (0 : ℚ) ∈ _normalize_scores l ∧ (100 : ℚ) ∈ _normalize_scores l) := by
  intro l hne
  constructor
  · intro hall
    rw [_normalize_scores, if_pos (Or.inr ((pyMax_eq_pyMin_iff hne).mpr hall))]
  · intro hnall
    have hmxmn : pyMax l ≠ pyMin l := fun he => hnall ((pyMax_eq_pyMin_iff hne).mp he)
    have hlt : pyMin l < pyMax l :=
      lt_of_le_of_ne (le_pyMax_of_mem (pyMin_mem hne)) (Ne.symm hmxmn)
    have hpos : 0 < pyMax l - pyMin l := by linarith
    have hform : _normalize_scores l =
        l.map fun v => round1 ((v - pyMin l) / (pyMax l - pyMin l) * 100) := by
      rw [_normalize_scores, if_neg]
      push_neg
      exact ⟨hne, hmxmn⟩
    have hval : ∀ n ∈ l, 0 ≤ (n - pyMin l) / (pyMax l - pyMin l) * 100 ∧
        (n - pyMin l) / (pyMax l - pyMin l) * 100 ≤ 100 := by
      intro n hn
      have h1 : pyMin l ≤ n := pyMin_le_of_mem hn
      have h2 : n ≤ pyMax l := le_pyMax_of_mem hn
      constructor
      · exact mul_nonneg (div_nonneg (by linarith) (by linarith)) (by norm_num)
      · have hdiv : (n - pyMin l) / (pyMax l - pyMin l) ≤ 1 :=
          (div_le_one hpos).mpr (by linarith)
        nlinarith
    refine ⟨by rw [hform]; exact l.length_map _, ?_, ?_, ?_, ?_, ?_, ?_⟩
    · intro i n hi
      rw [hform, List.getElem?_map, hi, Option.map_some']
    · intro q hq
      rw [hform] at hq
      obtain ⟨n, hn, rfl⟩ := List.mem_map.mp hq
      obtain ⟨h0, h1⟩ := hval n hn
      have hb := round1_bounds h0 h1
      exact hb
    · intro i n hi hn
      rw [hform, List.getElem?_map, hi, Option.map_some', hn]
      have : (pyMin l - pyMin l) / (pyMax l - pyMin l) * 100 = 0 := by
        rw [sub_self, zero_div, zero_mul]
      rw [this, round1_zero]
    · intro i n hi hn
      rw [hform, List.getElem?_map, hi, Option.map_some', hn]
      have : (pyMax l - pyMin l) / (pyMax l - pyMin l) * 100 = 100 := by
        rw [div_self (by linarith : pyMax l - pyMin l ≠ 0), one_mul]
      rw [this, round1_hundred]
    · rw [hform]
      refine List.mem_map.mpr ⟨pyMin l, pyMin_mem hne, ?_⟩
      have : (pyMin l - pyMin l) / (pyMax l - pyMin l) * 100 = 0 := by
        rw [sub_self, zero_div, zero_mul]
      rw [this, round1_zero]
    · rw [hform]
      refine List.mem_map.mpr ⟨pyMax l, pyMax_mem hne, ?_⟩
      have : (pyMax l - pyMin l) / (pyMax l - pyMin l) * 100 = 100 := by
        rw [div_self (by linarith : pyMax l - pyMin l ≠ 0), one_mul]
      rw [this, round1_hundred]

/-- Witness for C3 at the spec scenario scores `[80, 50, 20]`. -/
theorem C3_witness :
    ([80, 50, 20] : List ℚ) ≠ [] ∧
    ¬ (∀ x ∈ ([80, 50, 20] : List ℚ), ∀ y ∈ ([80, 50, 20] : List ℚ), x = y) ∧
    (_normalize_scores [80, 50, 20]).length = 3 ∧
    (0 : ℚ) ∈ _normalize_scores [80, 50, 20] ∧
    (100 : ℚ) ∈ _normalize_scores [80, 50, 20] := by
  have h := (C3_normalize [80, 50, 20] (by decide)).2 (by decide)
  exact ⟨by decide, by decide, h.1, h.2.2.2.2.2.1, h.2.2.2.2.2.2⟩

/-! ## Membership machinery for `discover_narratives` -/

theorem _normalize_scores_length (l : List ℚ) : (_normalize_scores l).length = l.length := by
  unfold _normalize_scores
  split
  · exact List.length_replicate _ _
  · exact List.length_map _ _

theorem updateScores_elem {ns : List Narrative} {i : ℕ} {n : Narrative}
    (h : (updateScores ns)[i]? = some n) :
    ∃ m, ns[i]? = some m ∧ n = { m with score := n.score } := by
  unfold updateScores at h
  by_cases hne : ns ≠ []
  · rw [if_pos hne] at h
    obtain ⟨hi, hget⟩ := List.getElem?_eq_some.mp h
    rw [List.length_map, List.length_zip, _normalize_scores_length, List.length_map,
      min_self] at hi
    have hi2 : i < (ns.zip (_normalize_scores (ns.map fun x => x.raw_score))).length := by
      rw [List.length_zip, _normalize_scores_length, List.length_map, min_self]
      exact hi
    rw [List.getElem_map, List.getElem_zip] at hget
    refine ⟨ns[i], List.getElem?_eq_getElem hi, ?_⟩
    rw [← hget]
  · rw [if_neg hne] at h
    push_neg at hne
    subst hne
    simp at h

theorem updateScores_getElem (ns : List Narrative) (i : ℕ) (m : Narrative)
    (h : ns[i]? = some m) :
    ∃ s, (updateScores ns)[i]? = some { m with score := s } := by
  obtain ⟨hi, hget⟩ := List.getElem?_eq_some.mp h
  have hne : ns ≠ [] := List.ne_nil_of_length_pos (lt_of_le_of_lt (Nat.zero_le i) hi)
  have hi2 : i < (ns.zip (_normalize_scores (ns.map fun x => x.raw_score))).length := by
    rw [List.length_zip, _normalize_scores_length, List.length_map, min_self]
    exact hi
  have hi3 : i <
      ((ns.zip (_normalize_scores (ns.map fun x => x.raw_score))).map fun p =>
        { p.1 with score := p.2 }).length := by
    rw [List.length_map]
    exact hi2
  refine ⟨(_normalize_scores (ns.map fun x => x.raw_score)).get ⟨i, by
    rw [_normalize_scores_length, List.length_map]; exact hi⟩, ?_⟩
  unfold updateScores
  rw [if_pos hne, List.getElem?_eq_getElem hi3, List.getElem_map, List.getElem_zip, hget]
  rw [List.get_eq_getElem]

theorem discover_narratives_mem_of {sigs : List Signal} {corpus : List String} {m : Narrative}
    (hm : m ∈ KNOWN_THEMES.filterMap (catalogNarrative sigs) ++
      _discover_unknown_themes corpus sigs) :
    ∃ s, { m with score := s } ∈ discover_narratives sigs corpus := by
  obtain ⟨i, hi⟩ := List.mem_iff_getElem?.mp hm
  obtain ⟨s, hs⟩ := updateScores_getElem _ i m hi
  refine ⟨s, ?_⟩
  unfold discover_narratives
  rw [mem_stableSortBy_iff]
  exact List.mem_iff_getElem?.mpr ⟨i, hs⟩

theorem discover_narratives_mem_inv {sigs : List Signal} {corpus : List String} {n : Narrative}
    (h : n ∈ discover_narratives sigs corpus) :
    ∃ m ∈ KNOWN_THEMES.filterMap (catalogNarrative sigs) ++
      _discover_unknown_themes corpus sigs, n = { m with score := n.score } := by
  unfold discover_narratives at h
  rw [mem_stableSortBy_iff] at h
  obtain ⟨i, hi⟩ := List.mem_iff_getElem?.mp h
  obtain ⟨m, hm, he⟩ := updateScores_elem hi
  exact ⟨m, List.mem_iff_getElem?.mpr ⟨i, hm⟩, he⟩

theorem catalogNarrative_eq (sigs : List Signal) (theme : String × List String)
    (h : matchedSignals sigs theme.2 ≠ []) :
    catalogNarrative sigs theme = some (catalogRecord sigs theme) := by
  simp only [catalogNarrative, catalogRecord, if_neg h]

theorem nodup_keys_eq {l : List (String × List String)}
    (hnd : (l.map Prod.fst).Nodup) {a : String} {b c : List String}
    (hb : (a, b) ∈ l) (hc : (a, c) ∈ l) : b = c := by
  induction l with
  | nil => cases hb
  | cons x xs ih =>
    rw [List.map_cons, List.nodup_cons] at hnd
    rcases List.mem_cons.mp hb with hbx | hb2
    · rcases List.mem_cons.mp hc with hcx | hc2
      · rw [← hbx] at hcx
        exact (Prod.mk.injEq a b a c ▸ hcx.symm).2
      · exfalso
        exact hnd.1 (List.mem_map.mpr ⟨(a, c), hc2, by rw [← hbx]⟩)
    · rcases List.mem_cons.mp hc with hcx | hc2
      · exfalso
        exact hnd.1 (List.mem_map.mpr ⟨(a, b), hb2, by rw [← hcx]⟩)
      · exact ih hnd.2 hb2 hc2

/-! ## C5 — catalog theme composite score -/

/-- C5: every catalog theme with a non-empty matched signal list yields a
narrative whose `raw_score` is `avg_strength × (1 + 0.4 × (diversity − 1))
× min(count / 3, 2)`, where `avg_strength` is the mean of the matched
signals' `strength_raw` and `diversity` the number of distinct sources;
the signal-count factor is non-decreasing and equals 2 from 6 signals on. -/
theorem C5_raw_score :
    ∀ (sigs : List Signal) (corpus : List String) (name : String) (kws : List String),
      (name, kws) ∈ KNOWN_THEMES →
      matchedSignals sigs kws ≠ [] →
      (∃ n ∈ discover_narratives sigs corpus,
        n.name = name ∧ n.discovered = false ∧
        n.signal_count = (matchedSignals sigs kws).length ∧
        n.source_diversity = ((matchedSignals sigs kws).map fun s => s.source).toFinset.card ∧
        n.raw_score =
          ((((matchedSignals sigs kws).map fun s => s.strength_raw).sum) /
            ((matchedSignals sigs kws).length : ℚ)) *
          (1 + 2 / 5 * ((n.source_diversity : ℚ) - 1)) *
          min ((n.signal_count : ℚ) / 3) 2) ∧
      (∀ k1 k2 : ℕ, k1 ≤ k2 → min ((k1 : ℚ) / 3) 2 ≤ min ((k2 : ℚ) / 3) 2) ∧
      (∀ k : ℕ, 6 ≤ k → min ((k : ℚ) / 3) 2 = 2) := by
  intro sigs corpus name kws htheme hne
  refine ⟨?_, ?_, ?_⟩
  · have heq := catalogNarrative_eq sigs (name, kws) hne
    have hmem : catalogRecord sigs (name, kws) ∈
        KNOWN_THEMES.filterMap (catalogNarrative sigs) ++
          _discover_unknown_themes corpus sigs :=
      List.mem_append_left _ (List.mem_filterMap.mpr ⟨(name, kws), htheme, heq⟩)
    obtain ⟨s, hs⟩ := discover_narratives_mem_of hmem
    refine ⟨_, hs, rfl, rfl, rfl, ?_, ?_⟩
    · exact (List.card_toFinset _).symm
    · show (catalogRecord sigs (name, kws)).raw_score = _
      have hmapne : ((matchedSignals sigs (name, kws).2).map fun s => s.strength_raw) ≠ [] := by
        intro hmap
        exact hne (List.map_eq_nil_iff.mp hmap)
      simp only [catalogRecord, if_pos hmapne, List.length_map]
  · intro k1 k2 hk
    exact min_le_min (by
      apply div_le_div_of_nonneg_right ?_ (by norm_num)
      exact_mod_cast hk) le_rfl
  · intro k hk
    apply min_eq_right
    have h6 : (6 : ℚ) ≤ (k : ℚ) := by exact_mod_cast hk
    linarith

/-- Witness for C5: one GitHub signal matching the AI theme. -/
theorem C5_witness :
    ("AI & Autonomous Agents",
      ["ai agent", "agent", "autonomous", "eliza", "sendai", "llm", "machine learning"]) ∈
        KNOWN_THEMES ∧
    matchedSignals
      [{ source := "github", type := "narrative_probe", topic := "ai agent",
         text := "2 active repos", strength_raw := 2 }]
      ["ai agent", "agent", "autonomous", "eliza", "sendai", "llm", "machine learning"] ≠ [] ∧
    (∃ n ∈ discover_narratives
        [{ source := "github", type := "narrative_probe", topic := "ai agent",
           text := "2 active repos", strength_raw := 2 }] [],
      n.name = "AI & Autonomous Agents" ∧ n.discovered = false ∧
      n.signal_count = (matchedSignals
        [{ source := "github", type := "narrative_probe", topic := "ai agent",
           text := "2 active repos", strength_raw := 2 }]
        ["ai agent", "agent", "autonomous", "eliza", "sendai", "llm", "machine learning"]).length ∧
      n.source_diversity = ((matchedSignals
        [{ source := "github", type := "narrative_probe", topic := "ai agent",
           text := "2 active repos", strength_raw := 2 }]
        ["ai agent", "agent", "autonomous", "eliza", "sendai", "llm", "machine learning"]).map
          fun s => s.source).toFinset.card ∧
      n.raw_score =
        ((((matchedSignals
          [{ source := "github", type := "narrative_probe", topic := "ai agent",
             text := "2 active repos", strength_raw := 2 }]
          ["ai agent", "agent", "autonomous", "eliza", "sendai", "llm", "machine learning"]).map
            fun s => s.strength_raw).sum) /
          ((matchedSignals
            [{ source := "github", type := "narrative_probe", topic := "ai agent",
               text := "2 active repos", strength_raw := 2 }]
            ["ai agent", "agent", "autonomous", "eliza", "sendai", "llm", "machine learning"]).length : ℚ)) *
        (1 + 2 / 5 * ((n.source_diversity : ℚ) - 1)) *
        min ((n.signal_count : ℚ) / 3) 2) := by
  refine ⟨by decide, by decide, ?_⟩
  exact (C5_raw_score
    [{ source := "github", type := "narrative_probe", topic := "ai agent",
       text := "2 active repos", strength_raw := 2 }] [] "AI & Autonomous Agents"
    ["ai agent", "agent", "autonomous", "eliza", "sendai", "llm", "machine learning"]
    (by decide) (by decide)).1

/-! ## C7 — substring matching and empty-theme exclusion -/

theorem leadsWith_iff (n h : List Char) : leadsWith n h = true ↔ n <+: h := by
  induction n generalizing h with
  | nil => simp [leadsWith]
  | cons a as ih =>
    cases h with
    | nil => simp [leadsWith]
    | cons b bs => simp [leadsWith, ih, List.cons_prefix_cons]

theorem strContains_iff (hay needle : String) :
    strContains hay needle = true ↔
      ∃ pre post : List Char, hay.data = pre ++ needle.data ++ post := by
  unfold strContains
  rw [List.any_eq_true]
  constructor
  · rintro ⟨i, _, hw⟩
    rw [leadsWith_iff] at hw
    obtain ⟨t, ht⟩ := hw
    refine ⟨hay.data.take i, t, ?_⟩
    conv_lhs => rw [← List.take_append_drop i hay.data]
    rw [← ht, List.append_assoc]
  · rintro ⟨pre, post, he⟩
    refine ⟨pre.length, ?_, ?_⟩
    · rw [List.mem_range]
      have : hay.data.length = pre.length + (needle.data.length + post.length) := by
        rw [he]
        simp [List.length_append]
      omega
    · rw [leadsWith_iff, he, List.append_assoc, List.drop_left]
      exact ⟨post, rfl⟩

theorem unknown_discovered {corpus : List String} {sigs : List Signal} :
    ∀ n ∈ _discover_unknown_themes corpus sigs, n.discovered = true := by
  intro n hn
  unfold _discover_unknown_themes at hn
  split at hn
  · cases hn
  · obtain ⟨bc, _, he⟩ := List.mem_map.mp (List.mem_of_mem_take hn)
    rw [← he]
    rfl

/-- C7: a signal is assigned to a catalog theme iff some theme keyword
occurs as a contiguous substring of the lowercased concatenation of the
signal topic and text, and a catalog theme matching zero signals yields
no narrative. -/
theorem C7_matcher :
    ∀ (sigs : List Signal) (corpus : List String) (name : String) (kws : List String)
      (s : Signal),
      (s ∈ matchedSignals sigs kws ↔
        s ∈ sigs ∧ ∃ kw ∈ kws, ∃ pre post : List Char,
          (lowerStr (s.topic ++ " " ++ s.text)).data = pre ++ kw.data ++ post) ∧
      ((name, kws) ∈ KNOWN_THEMES → matchedSignals sigs kws = [] →
        ¬ ∃ n ∈ discover_narratives sigs corpus, n.name = name ∧ n.discovered = false) := by
  intro sigs corpus name kws s
  constructor
  · rw [matchedSignals, List.mem_filter]
    constructor
    · rintro ⟨hs, hmatch⟩
      refine ⟨hs, ?_⟩
      obtain ⟨kw, hkw, hc⟩ := List.any_eq_true.mp hmatch
      obtain ⟨pre, post, he⟩ := (strContains_iff _ _).mp hc
      exact ⟨kw, hkw, pre, post, he⟩
    · rintro ⟨hs, kw, hkw, pre, post, he⟩
      refine ⟨hs, List.any_eq_true.mpr ⟨kw, hkw, ?_⟩⟩
      exact (strContains_iff _ _).mpr ⟨pre, post, he⟩
  · intro htheme hempty ⟨n, hmem, hname, hdisc⟩
    obtain ⟨m, hm, he⟩ := discover_narratives_mem_inv hmem
    rcases List.mem_append.mp hm with hcat | hunk
    · obtain ⟨theme, hth, hsome⟩ := List.mem_filterMap.mp hcat
      by_cases hmt : matchedSignals sigs theme.2 = []
      · rw [catalogNarrative] at hsome
        simp only [hmt, if_pos] at hsome
        exact Option.noConfusion hsome
      · rw [catalogNarrative_eq sigs theme hmt] at hsome
        have hmrec : m = catalogRecord sigs theme := (Option.some.inj hsome).symm
        have hn1 : n.name = theme.1 := by
          rw [he, hmrec]
          rfl
        have hth2 : (name, theme.2) ∈ KNOWN_THEMES := by
          have : theme = (name, theme.2) := by
            rw [← hname, hn1]
          rw [← this]
          exact hth
        have hkws : theme.2 = kws :=
          nodup_keys_eq (by decide) hth2 htheme
        rw [hkws] at hmt
        exact hmt hempty
    · have : n.discovered = true := by
        rw [he]
        exact unknown_discovered m hunk
      rw [hdisc] at this
      cases this

/-- Witness for C7: the iff at a concrete matching signal, and the
exclusion of the Privacy theme, unmatched by an AI-probe signal. -/
theorem C7_witness :
    (({ source := "github", type := "narrative_probe", topic := "ai agent",
        text := "2 active repos", strength_raw := 2 } : Signal) ∈
      matchedSignals
        [{ source := "github", type := "narrative_probe", topic := "ai agent",
           text := "2 active repos", strength_raw := 2 }]
        ["privacy", "confidential", "zk proof", "shielded", "private"] ↔
      ({ source := "github", type := "narrative_probe", topic := "ai agent",
         text := "2 active repos", strength_raw := 2 } : Signal) ∈
        [{ source := "github", type := "narrative_probe", topic := "ai agent",
           text := "2 active repos", strength_raw := 2 }] ∧
      ∃ kw ∈ ["privacy", "confidential", "zk proof", "shielded", "private"],
        ∃ pre post : List Char,
          (lowerStr ("ai agent" ++ " " ++ "2 active repos")).data =
            pre ++ kw.data ++ post) ∧
    ("Privacy & Confidential Transfers",
      ["privacy", "confidential", "zk proof", "shielded", "private"]) ∈ KNOWN_THEMES ∧
    matchedSignals
      [{ source := "github", type := "narrative_probe", topic := "ai agent",
         text := "2 active repos", strength_raw := 2 }]
      ["privacy", "confidential", "zk proof", "shielded", "private"] = [] ∧
    ¬ ∃ n ∈ discover_narratives
        [{ source := "github", type := "narrative_probe", topic := "ai agent",
           text := "2 active repos", strength_raw := 2 }] [],
      n.name = "Privacy & Confidential Transfers" ∧ n.discovered = false := by
  have h := C7_matcher
    [{ source := "github", type := "narrative_probe", topic := "ai agent",
       text := "2 active repos", strength_raw := 2 }] []
    "Privacy & Confidential Transfers"
    ["privacy", "confidential", "zk proof", "shielded", "private"]
    { source := "github", type := "narrative_probe", topic := "ai agent",
      text := "2 active repos", strength_raw := 2 }
  exact ⟨h.1, by decide, by decide, h.2 (by decide) (by decide)⟩

/-! ## C6 — emergent theme mining -/

theorem contains_iff_mem {l : List String} {a : String} : l.contains a = true ↔ a ∈ l :=
  List.elem_iff

theorem qualifying_pairwise (corpus : List String) :
    (qualifyingBigrams corpus).Pairwise fun a b => b.2 ≤ a.2 := by
  have hsorted := @pairwise_stableSortBy ((String × String) × Nat)
    (fun a b => decide (b.2 ≤ a.2))
    (fun a b => by
      rcases Nat.le_total b.2 a.2 with h | h
      · exact Or.inl (decide_eq_true h)
      · exact Or.inr (decide_eq_true h))
    (fun a b c hab hbc => decide_eq_true (le_trans (of_decide_eq_true hbc) (of_decide_eq_true hab)))
    (bigramCounts corpus)
  have htake : (mostCommon 30 (bigramCounts corpus)).Pairwise
      fun a b => decide (b.2 ≤ a.2) = true :=
    List.Pairwise.sublist (List.take_sublist _ _) hsorted
  have hsig := htake.filter (fun bc => decide (3 ≤ bc.2))
  have hqual := hsig.filter fun bc =>
    !all_known_keywords.contains bc.1.1 && !all_known_keywords.contains bc.1.2
  exact hqual.imp fun h => of_decide_eq_true h

/-- C6: the emergent theme miner yields at most three themes, each built
from a top-30 bigram of count at least 3 whose two words lie outside the
catalog vocabulary, named from the title-cased bigram with an
"(Emerging)" marker and carrying `raw_score = count × 3`; that score
enters `discover_narratives` unmodified; with ten or more qualifying
bigrams the miner returns exactly the three of highest count. -/
theorem C6_emergent :
    ∀ (corpus : List String) (sigs : List Signal),
      (_discover_unknown_themes corpus sigs).length ≤ 3 ∧
      (∀ n ∈ _discover_unknown_themes corpus sigs,
        ∃ bc ∈ qualifyingBigrams corpus,
          n = unknownTheme bc ∧ 3 ≤ bc.2 ∧ bc ∈ mostCommon 30 (bigramCounts corpus) ∧
          bc.1.1 ∉ all_known_keywords ∧ bc.1.2 ∉ all_known_keywords ∧
          n.name = titleWord bc.1.1 ++ " " ++ titleWord bc.1.2 ++ " (Emerging)" ∧
          n.raw_score = (bc.2 : ℚ) * 3) ∧
      (∀ n ∈ _discover_unknown_themes corpus sigs,
        ∃ m ∈ discover_narratives sigs corpus,
          m.name = n.name ∧ m.raw_score = n.raw_score ∧ m.discovered = true) ∧
      (10 ≤ (qualifyingBigrams corpus).length →
        _discover_unknown_themes corpus sigs =
          ((qualifyingBigrams corpus).take 3).map unknownTheme ∧
        (_discover_unknown_themes corpus sigs).length = 3 ∧
        (∀ a ∈ (qualifyingBigrams corpus).take 3,
          ∀ b ∈ (qualifyingBigrams corpus).drop 3, b.2 ≤ a.2)) := by
  intro corpus sigs
  refine ⟨?_, ?_, ?_, ?_⟩
  · unfold _discover_unknown_themes
    split
    · simp
    · rw [List.length_take]
      exact min_le_left _ _
  · intro n hn
    unfold _discover_unknown_themes at hn
    split at hn
    · cases hn
    · obtain ⟨bc, hbc, he⟩ := List.mem_map.mp (List.mem_of_mem_take hn)
      obtain ⟨hsig, hcond⟩ := List.mem_filter.mp hbc
      obtain ⟨_, hcount⟩ := List.mem_filter.mp hsig
      obtain ⟨h1, h2⟩ := Bool.and_eq_true_iff.mp hcond
      refine ⟨bc, hbc, he.symm, of_decide_eq_true hcount,
        (List.mem_filter.mp hsig).1, ?_, ?_, ?_, ?_⟩
      · intro hmem
        rw [contains_iff_mem.mpr hmem] at h1
        cases h1
      · intro hmem
        rw [contains_iff_mem.mpr hmem] at h2
        cases h2
      · rw [← he]
        rfl
      · rw [← he]
        rfl
  · intro n hn
    have hm : n ∈ KNOWN_THEMES.filterMap (catalogNarrative sigs) ++
        _discover_unknown_themes corpus sigs := List.mem_append_right _ hn
    obtain ⟨s, hs⟩ := discover_narratives_mem_of hm
    exact ⟨_, hs, rfl, rfl, unknown_discovered n hn⟩
  · intro hq
    have hcne : corpus ≠ [] := by
      intro hc
      subst hc
      revert hq
      decide
    have hform : _discover_unknown_themes corpus sigs =
        ((qualifyingBigrams corpus).take 3).map unknownTheme := by
      unfold _discover_unknown_themes
      rw [if_neg hcne, List.map_take]
    refine ⟨hform, ?_, ?_⟩
    · rw [hform, List.length_map, List.length_take]
      omega
    · intro a ha b hb
      have hpw := qualifying_pairwise corpus
      rw [← List.take_append_drop 3 (qualifyingBigrams corpus)] at hpw
      exact (List.pairwise_append.mp hpw).2.2 a ha b hb

/-- Witness for C6: a corpus with exactly ten qualifying bigrams (each of
count 3) yields exactly the first three as themes. -/
theorem C6_witness :
    10 ≤ (qualifyingBigrams c6corpus).length ∧
    _discover_unknown_themes c6corpus [] =
      ((qualifyingBigrams c6corpus).take 3).map unknownTheme ∧
    (_discover_unknown_themes c6corpus []).length = 3 ∧
    (∀ a ∈ (qualifyingBigrams c6corpus).take 3,
      ∀ b ∈ (qualifyingBigrams c6corpus).drop 3, b.2 ≤ a.2) := by
  have h := (C6_emergent c6corpus []).2.2.2 (by decide)
  exact ⟨by decide, h.1, h.2.1, h.2.2⟩

/-! ## C2 — normalizers and raised errors -/

theorem bind_isOk {ε α β : Type} {e : Except ε α} {f : α → Except ε β}
    (he : ∃ a, e = .ok a) (hf : ∀ a, ∃ b, f a = .ok b) : ∃ b, (e >>= f) = .ok b := by
  obtain ⟨a, ha⟩ := he
  obtain ⟨b, hb⟩ := hf a
  exact ⟨b, by rw [ha, except_bind_ok, hb]⟩

theorem probeSignal_isOk (p : Probe) (h : p.query.isSome) :
    ∃ ys, probeSignal p = .ok ys := by
  simp only [probeSignal]
  split
  · obtain ⟨q, hq⟩ := req_isOk "query" h
    rw [hq]
    exact ⟨_, rfl⟩
  · exact ⟨[], rfl⟩

theorem newRepoSignal_isOk (r : Repo) (h1 : r.stars.isSome) (h2 : r.name.isSome) :
    ∃ ys, newRepoSignal r = .ok ys := by
  simp only [newRepoSignal]
  split
  · obtain ⟨st, hst⟩ := req_isOk "stars" h1
    obtain ⟨nm, hnm⟩ := req_isOk "name" h2
    rw [hst, hnm]
    exact ⟨_, rfl⟩
  · exact ⟨[], rfl⟩

theorem trendingSignal_isOk (r : Repo) (h1 : r.stars.isSome) (h2 : r.name.isSome) :
    ∃ ys, trendingSignal r = .ok ys := by
  simp only [trendingSignal]
  obtain ⟨st, hst⟩ := req_isOk "stars" h1
  obtain ⟨nm, hnm⟩ := req_isOk "name" h2
  rw [hst, hnm]
  exact ⟨_, rfl⟩

theorem extract_github_isOk {g : GithubPayload} (h : WFGithub g) :
    ∃ out, extract_github_signals g = .ok out := by
  obtain ⟨h1, h2, h3⟩ := h
  obtain ⟨o1, ho1⟩ := collectME_isOk fun p hp => probeSignal_isOk p (h1 p hp)
  obtain ⟨o2, ho2⟩ :=
    collectME_isOk fun r hr => newRepoSignal_isOk r (h2 r hr).1 (h2 r hr).2
  have htr : ∀ r ∈ (g.trending_repos.getD []).take 5, ∃ ys, trendingSignal r = .ok ys :=
    fun r hr =>
      trendingSignal_isOk r (h3 r (List.mem_of_mem_take hr)).1 (h3 r (List.mem_of_mem_take hr)).2
  obtain ⟨o3, ho3⟩ := collectME_isOk htr
  refine ⟨o1 ++ o2 ++ o3, ?_⟩
  simp only [extract_github_signals, ho1, ho2, ho3, except_bind_ok]
  rfl

theorem buildCatData_isOk :
    ∀ (ps : List ProtocolRec), (∀ p ∈ ps, p.name.isSome) →
      ∀ acc, ∃ entries, buildCatData ps acc = .ok entries := by
  intro ps hps
  induction ps with
  | nil => exact fun acc => ⟨acc, rfl⟩
  | cons p rest ih =>
    intro acc
    obtain ⟨nm, hnm⟩ := req_isOk "name" (hps p (List.mem_cons_self p rest))
    obtain ⟨entries, he⟩ :=
      ih (fun q hq => hps q (List.mem_cons_of_mem p hq))
        (addToCat (p.category.getD "Other") (p.tvl_usd.getD 0) (chgOf p) nm acc)
    exact ⟨entries, by rw [buildCatData, hnm, except_bind_ok, he]⟩

theorem sumNonMajor_isOk :
    ∀ {l : List StableAsset}, (∀ s ∈ l, s.symbol.isSome ∧ s.mcap_usd.isSome) →
      ∃ v, sumNonMajor l = .ok v := by
  intro l hl
  induction l with
  | nil => exact ⟨0, rfl⟩
  | cons s rest ih =>
    obtain ⟨sym, hsym⟩ := req_isOk "symbol" (hl s (List.mem_cons_self s rest)).1
    obtain ⟨v, hv⟩ := ih fun a ha => hl a (List.mem_cons_of_mem s ha)
    by_cases hmaj : sym = "USDC" ∨ sym = "USDT"
    · exact ⟨v, by rw [sumNonMajor, hsym, except_bind_ok, if_pos hmaj, hv]⟩
    · obtain ⟨m, hm⟩ := req_isOk "mcap_usd" (hl s (List.mem_cons_self s rest)).2
      refine ⟨m + v, ?_⟩
      rw [sumNonMajor, hsym, except_bind_ok, if_neg hmaj, hm, except_bind_ok, hv,
        except_bind_ok]
      rfl

theorem protocolsSignals_isOk {ps : List ProtocolRec} (h : ∀ p ∈ ps, p.name.isSome) :
    ∃ out, protocolsSignals ps = .ok out := by
  unfold protocolsSignals
  split
  · exact bind_isOk (buildCatData_isOk _ h []) fun cd => ⟨_, rfl⟩
  · exact ⟨[], rfl⟩

theorem stablesSignals_isOk {st : StablesRec}
    (h : ∀ a ∈ st.assets.getD [], a.symbol.isSome ∧ a.mcap_usd.isSome) :
    ∃ out, stablesSignals st = .ok out := by
  simp only [stablesSignals]
  split
  · exact bind_isOk (sumNonMajor_isOk h) fun nm => ⟨_, rfl⟩
  · exact ⟨[], rfl⟩

theorem extract_defi_isOk {d : DefiPayload} (hwf : WFDefi d) :
    ∃ out, extract_defi_signals d = .ok out := by
  obtain ⟨h1, h2⟩ := hwf
  simp only [extract_defi_signals]
  apply bind_isOk (protocolsSignals_isOk h1)
  intro s2
  apply bind_isOk (stablesSignals_isOk h2)
  intro s4
  exact ⟨_, rfl⟩

theorem redditSignal_isOk (p : Post)
    (h : p.score.isSome ∧ p.comments.isSome ∧ p.title.isSome) :
    ∃ ys, redditSignal p = .ok ys := by
  obtain ⟨sc, hsc⟩ := req_isOk "score" h.1
  obtain ⟨cm, hcm⟩ := req_isOk "comments" h.2.1
  obtain ⟨ti, hti⟩ := req_isOk "title" h.2.2
  rw [redditSignal, hsc, hcm, hti]
  exact ⟨_, rfl⟩

theorem redditSignals_isOk {posts : List Post}
    (h : ∀ p ∈ posts, p.score.isSome ∧ p.comments.isSome ∧ p.title.isSome) :
    ∃ out, redditSignals posts = .ok out := by
  unfold redditSignals
  split
  · exact collectME_isOk fun p hp => redditSignal_isOk p
      (h p ((mem_stableSortBy_iff _ _ p).mp (List.mem_of_mem_take hp)))
  · exact ⟨[], rfl⟩

theorem forumSignals_isOk {forum : List ForumItem} (h : ∀ f ∈ forum, f.title.isSome) :
    ∃ out, forumSignals forum = .ok out := by
  cases forum with
  | nil => exact ⟨[], rfl⟩
  | cons f0 rest =>
    simp only [forumSignals]
    apply bind_isOk (mapME_isOk fun f hf => req_isOk "title" (h f (List.mem_of_mem_take hf)))
    intro ts
    apply bind_isOk (req_isOk "title" (h f0 (List.mem_cons_self f0 rest)))
    intro t0
    exact ⟨_, rfl⟩

theorem extract_social_isOk {s : SocialPayload} (hwf : WFSocial s) :
    ∃ out, extract_social_signals s = .ok out := by
  obtain ⟨h1, h2⟩ := hwf
  simp only [extract_social_signals]
  apply bind_isOk (redditSignals_isOk h1)
  intro s1
  apply bind_isOk (forumSignals_isOk h2)
  intro s3
  exact ⟨_, rfl⟩

/-- C2 counterexample: a narrative probe with a positive count but no
`query` key makes `extract_github_signals` raise `KeyError`, so a raw
payload can drive a normalizer into an error that reaches the caller. -/
theorem C2_counterexample :
    extract_github_signals ⟨some [⟨none, some 1, none⟩], none, none⟩ =
      .error (.keyError "query") ∧
    (extract_github_signals ⟨some [⟨none, some 1, none⟩], none, none⟩).isOk = false := by
  exact ⟨by decide, by decide⟩

/-- C2 (amended): each signal normalizer treats missing defaulted fields
as zero/empty, and returns a signal list without raising provided every
record carries the fields the source reads by direct subscript (probe
`query`; repo `stars`/`name`; protocol `name`; stablecoin asset
`symbol`/`mcap_usd`; post `score`/`comments`/`title`; forum `title`). -/
theorem C2_extractors :
    ∀ (g : GithubPayload) (d : DefiPayload) (s : SocialPayload),
      WFGithub g → WFDefi d → WFSocial s →
      (∃ o1, extract_github_signals g = .ok o1) ∧
      (∃ o2, extract_defi_signals d = .ok o2) ∧
      (∃ o3, extract_social_signals s = .ok o3) := by
  intro g d s hg hd hs
  exact ⟨extract_github_isOk hg, extract_defi_isOk hd, extract_social_isOk hs⟩

/-- Witness for C2 (amended) at concrete well-formed payloads. -/
theorem C2_witness :
    WFGithub ⟨some [⟨some "solana ai agent", some 2, some 10⟩], none, none⟩ ∧
    WFDefi ⟨none, some [⟨some "Kamino", some "Lending", some 6000000, some 4⟩], none,
      some ⟨some 2000000000, some [⟨some "PYUSD", some 100000000⟩]⟩, none⟩ ∧
    WFSocial ⟨some ⟨some [⟨some 10, some 3, some "great post", none⟩], none⟩, none,
      some [⟨some "vote now", none⟩]⟩ ∧
    (∃ o1, extract_github_signals
      ⟨some [⟨some "solana ai agent", some 2, some 10⟩], none, none⟩ = .ok o1) ∧
    (∃ o2, extract_defi_signals
      ⟨none, some [⟨some "Kamino", some "Lending", some 6000000, some 4⟩], none,
        some ⟨some 2000000000, some [⟨some "PYUSD", some 100000000⟩]⟩, none⟩ = .ok o2) ∧
    (∃ o3, extract_social_signals
      ⟨some ⟨some [⟨some 10, some 3, some "great post", none⟩], none⟩, none,
        some [⟨some "vote now", none⟩]⟩ = .ok o3) := by
  have h := C2_extractors
    ⟨some [⟨some "solana ai agent", some 2, some 10⟩], none, none⟩
    ⟨none, some [⟨some "Kamino", some "Lending", some 6000000, some 4⟩], none,
      some ⟨some 2000000000, some [⟨some "PYUSD", some 100000000⟩]⟩, none⟩
    ⟨some ⟨some [⟨some 10, some 3, some "great post", none⟩], none⟩, none,
      some [⟨some "vote now", none⟩]⟩
    (by decide) (by decide) (by decide)
  exact ⟨by decide, by decide, by decide, h.1, h.2.1, h.2.2⟩

/-! ## C8 — source enumeration -/

theorem bind_eq_ok {ε α β : Type} {e : Except ε α} {f : α → Except ε β} {b : β}
    (h : (e >>= f) = .ok b) : ∃ a, e = .ok a ∧ f a = .ok b := by
  cases e with
  | ok a =>
    rw [except_bind_ok] at h
    exact ⟨a, rfl, h⟩
  | error e =>
    rw [except_bind_error] at h
    cases h

theorem collectME_mem {α : Type} {f : α → Except PyErr (List Signal)} {P : Signal → Prop}
    (hf : ∀ x ys, f x = .ok ys → ∀ s ∈ ys, P s) :
    ∀ {l : List α} {out : List Signal}, collectME f l = .ok out → ∀ s ∈ out, P s := by
  intro l
  induction l with
  | nil =>
    intro out h
    obtain rfl := Except.ok.inj h
    intro s hs
    cases hs
  | cons x xs ih =>
    intro out h
    rw [collectME] at h
    obtain ⟨ys, hys, h2⟩ := bind_eq_ok h
    obtain ⟨rest, hrest, hpure⟩ := bind_eq_ok h2
    obtain rfl := Except.ok.inj hpure
    intro s hs
    rcases List.mem_append.mp hs with hmem | hmem
    · exact hf x ys hys s hmem
    · exact ih hrest s hmem

theorem probeSignal_source {p : Probe} {ys : List Signal} (h : probeSignal p = .ok ys) :
    ∀ s ∈ ys, s.source = "github" := by
  simp only [probeSignal] at h
  split at h
  · obtain ⟨q, _, hpure⟩ := bind_eq_ok h
    obtain rfl := Except.ok.inj hpure
    intro s hs
    obtain rfl := List.mem_singleton.mp hs
    rfl
  · obtain rfl := Except.ok.inj h
    intro s hs
    cases hs

theorem newRepoSignal_source {r : Repo} {ys : List Signal} (h : newRepoSignal r = .ok ys) :
    ∀ s ∈ ys, s.source = "github" := by
  simp only [newRepoSignal] at h
  split at h
  · obtain ⟨st, _, h2⟩ := bind_eq_ok h
    obtain ⟨nm, _, hpure⟩ := bind_eq_ok h2
    obtain rfl := Except.ok.inj hpure
    intro s hs
    obtain rfl := List.mem_singleton.mp hs
    rfl
  · obtain rfl := Except.ok.inj h
    intro s hs
    cases hs

theorem trendingSignal_source {r : Repo} {ys : List Signal} (h : trendingSignal r = .ok ys) :
    ∀ s ∈ ys, s.source = "github" := by
  simp only [trendingSignal] at h
  obtain ⟨st, _, h2⟩ := bind_eq_ok h
  obtain ⟨nm, _, hpure⟩ := bind_eq_ok h2
  obtain rfl := Except.ok.inj hpure
  intro s hs
  obtain rfl := List.mem_singleton.mp hs
  rfl

theorem extract_github_sources {g : GithubPayload} {out : List Signal}
    (h : extract_github_signals g = .ok out) : ∀ s ∈ out, s.source = "github" := by
  simp only [extract_github_signals] at h
  obtain ⟨o1, h1, h2⟩ := bind_eq_ok h
  obtain ⟨o2, h2a, h3⟩ := bind_eq_ok h2
  obtain ⟨o3, h3a, hpure⟩ := bind_eq_ok h3
  obtain rfl := Except.ok.inj hpure
  intro s hs
  rcases List.mem_append.mp hs with hs12 | hs3
  · rcases List.mem_append.mp hs12 with hs1 | hs2
    · exact collectME_mem (fun x ys hys => probeSignal_source hys) h1 s hs1
    · exact collectME_mem (fun x ys hys => newRepoSignal_source hys) h2a s hs2
  · exact collectME_mem (fun x ys hys => trendingSignal_source hys) h3a s hs3

theorem tvlSignals_source (t : TvlRec) : ∀ s ∈ tvlSignals t, s.source = "defi" := by
  intro s hs
  simp only [tvlSignals] at hs
  split at hs
  · obtain rfl := List.mem_singleton.mp hs
    rfl
  · cases hs

theorem feesSignals_source (fees : List FeeRec) : ∀ s ∈ feesSignals fees, s.source = "defi" := by
  intro s hs
  simp only [feesSignals] at hs
  split at hs
  · obtain rfl := List.mem_singleton.mp hs
    rfl
  · cases hs

theorem dexSignals_source (dex : DexRec) : ∀ s ∈ dexSignals dex, s.source = "defi" := by
  intro s hs
  simp only [dexSignals] at hs
  split at hs
  · obtain rfl := List.mem_singleton.mp hs
    rfl
  · cases hs

theorem protocolsSignals_sources {ps : List ProtocolRec} {out : List Signal}
    (h : protocolsSignals ps = .ok out) : ∀ s ∈ out, s.source = "defi" := by
  simp only [protocolsSignals] at h
  split at h
  · obtain ⟨cd, _, hpure⟩ := bind_eq_ok h
    obtain rfl := Except.ok.inj hpure
    intro s hs
    obtain ⟨e, _, hse⟩ := List.mem_flatMap.mp hs
    simp only [categorySignal] at hse
    split at hse
    · obtain rfl := List.mem_singleton.mp hse
      rfl
    · cases hse
  · obtain rfl := Except.ok.inj h
    intro s hs
    cases hs

theorem stablesSignals_sources {st : StablesRec} {out : List Signal}
    (h : stablesSignals st = .ok out) : ∀ s ∈ out, s.source = "defi" := by
  simp only [stablesSignals] at h
  split at h
  · obtain ⟨nm, _, hpure⟩ := bind_eq_ok h
    obtain rfl := Except.ok.inj hpure
    intro s hs
    obtain rfl := List.mem_singleton.mp hs
    rfl
  · obtain rfl := Except.ok.inj h
    intro s hs
    cases hs

theorem extract_defi_sources {d : DefiPayload} {out : List Signal}
    (h : extract_defi_signals d = .ok out) : ∀ s ∈ out, s.source = "defi" := by
  simp only [extract_defi_signals] at h
  obtain ⟨s2, h2, hr⟩ := bind_eq_ok h
  obtain ⟨s4, h4, hpure⟩ := bind_eq_ok hr
  obtain rfl := Except.ok.inj hpure
  intro s hs
  rcases List.mem_append.mp hs with hs1234 | hs5
  · rcases List.mem_append.mp hs1234 with hs123 | hs4m
    · rcases List.mem_append.mp hs123 with hs12 | hs3
      · rcases List.mem_append.mp hs12 with hs1 | hs2m
        · exact tvlSignals_source _ s hs1
        · exact protocolsSignals_sources h2 s hs2m
      · exact feesSignals_source _ s hs3
    · exact stablesSignals_sources h4 s hs4m
  · exact dexSignals_source _ s hs5

theorem redditSignal_source {p : Post} {ys : List Signal} (h : redditSignal p = .ok ys) :
    ∀ s ∈ ys, s.source = "social" := by
  simp only [redditSignal] at h
  obtain ⟨sc, _, h2⟩ := bind_eq_ok h
  obtain ⟨cm, _, h3⟩ := bind_eq_ok h2
  obtain ⟨ti, _, hpure⟩ := bind_eq_ok h3
  obtain rfl := Except.ok.inj hpure
  intro s hs
  obtain rfl := List.mem_singleton.mp hs
  rfl

theorem redditSignals_sources {posts : List Post} {out : List Signal}
    (h : redditSignals posts = .ok out) : ∀ s ∈ out, s.source = "social" := by
  simp only [redditSignals] at h
  split at h
  · exact collectME_mem (fun x ys hys => redditSignal_source hys) h
  · obtain rfl := Except.ok.inj h
    intro s hs
    cases hs

theorem seSignals_source (se : List Question) : ∀ s ∈ seSignals se, s.source = "social" := by
  intro s hs
  simp only [seSignals] at hs
  split at hs
  · split at hs
    · obtain rfl := List.mem_singleton.mp hs
      rfl
    · cases hs
  · cases hs

theorem forumSignals_sources {forum : List ForumItem} {out : List Signal}
    (h : forumSignals forum = .ok out) : ∀ s ∈ out, s.source = "social" := by
  cases forum with
  | nil =>
    obtain rfl := Except.ok.inj h
    intro s hs
    cases hs
  | cons f0 rest =>
    simp only [forumSignals] at h
    obtain ⟨ts, _, h2⟩ := bind_eq_ok h
    obtain ⟨t0, _, hpure⟩ := bind_eq_ok h2
    obtain rfl := Except.ok.inj hpure
    intro s hs
    obtain rfl := List.mem_singleton.mp hs
    rfl

theorem extract_social_sources {sp : SocialPayload} {out : List Signal}
    (h : extract_social_signals sp = .ok out) : ∀ s ∈ out, s.source = "social" := by
  simp only [extract_social_signals] at h
  obtain ⟨s1, h1, hr⟩ := bind_eq_ok h
  obtain ⟨s3, h3, hpure⟩ := bind_eq_ok hr
  obtain rfl := Except.ok.inj hpure
  intro s hs
  rcases List.mem_append.mp hs with hs12 | hs3m
  · rcases List.mem_append.mp hs12 with hs1m | hs2
    · exact redditSignals_sources h1 s hs1m
    · exact seSignals_source _ s hs2
  · exact forumSignals_sources h3 s hs3m

theorem unknown_mem {corpus : List String} {sigs : List Signal} :
    ∀ n ∈ _discover_unknown_themes corpus sigs, ∃ bc, n = unknownTheme bc := by
  intro n hn
  unfold _discover_unknown_themes at hn
  split at hn
  · cases hn
  · obtain ⟨bc, _, he⟩ := List.mem_map.mp (List.mem_of_mem_take hn)
    exact ⟨bc, he.symm⟩

theorem narrative_sources {sigs : List Signal} {corpus : List String} {S : List String}
    (hS : ∀ s ∈ sigs, s.source ∈ S) :
    ∀ n ∈ discover_narratives sigs corpus,
      (∀ s ∈ n.signals, s.source ∈ S ∨ s.source = "text_analysis") ∧
      (∀ src ∈ n.sources, src ∈ S ∨ src = "text_analysis") ∧
      (n.discovered = false →
        (∀ s ∈ n.signals, s.source ∈ S) ∧ (∀ src ∈ n.sources, src ∈ S)) := by
  intro n hn
  obtain ⟨m, hm, he⟩ := discover_narratives_mem_inv hn
  have hsig : n.signals = m.signals := by rw [he]
  have hsrc : n.sources = m.sources := by rw [he]
  have hdis : n.discovered = m.discovered := by rw [he]
  rcases List.mem_append.mp hm with hcat | hunk
  · obtain ⟨theme, _, hsome⟩ := List.mem_filterMap.mp hcat
    by_cases hmt : matchedSignals sigs theme.2 = []
    · rw [catalogNarrative] at hsome
      simp only [hmt, if_pos] at hsome
      exact absurd hsome fun hh => Option.noConfusion hh
    · rw [catalogNarrative_eq sigs theme hmt] at hsome
      obtain rfl := Option.some.inj hsome
      have hsigs2 : ∀ s ∈ matchedSignals sigs theme.2, s.source ∈ S := fun s hs =>
        hS s (List.mem_of_mem_filter hs)
      have hsrcs2 : ∀ src ∈ ((matchedSignals sigs theme.2).map fun s => s.source).dedup,
          src ∈ S := by
        intro src hsrcm
        obtain ⟨s, hsm, rfl⟩ := List.mem_map.mp (List.mem_dedup.mp hsrcm)
        exact hsigs2 s hsm
      refine ⟨?_, ?_, fun _ => ⟨?_, ?_⟩⟩
      · intro s hs
        rw [hsig] at hs
        exact Or.inl (hsigs2 s hs)
      · intro src hsm
        rw [hsrc] at hsm
        exact Or.inl (hsrcs2 src hsm)
      · intro s hs
        rw [hsig] at hs
        exact hsigs2 s hs
      · intro src hsm
        rw [hsrc] at hsm
        exact hsrcs2 src hsm
  · obtain ⟨bc, rfl⟩ := unknown_mem m hunk
    refine ⟨?_, ?_, fun hfalse => ?_⟩
    · intro s hs
      rw [hsig] at hs
      obtain rfl := List.mem_singleton.mp hs
      exact Or.inr rfl
    · intro src hsm
      rw [hsrc] at hsm
      obtain rfl := List.mem_singleton.mp hsm
      exact Or.inr rfl
    · rw [hdis] at hfalse
      cases hfalse

/-- C8 counterexample: a discovered (text-mined) narrative carries the
synthetic source `"text_analysis"`, outside the three declared families. -/
theorem C8_counterexample :
    ∃ n ∈ discover_narratives [] ["quantum widget", "quantum widget", "quantum widget"],
      ∃ s ∈ n.signals, s.source ∉ (["github", "defi", "social"] : List String) := by
  decide

/-- C8 (amended): every signal emitted by the three normalizers carries
its family source (`github` / `defi` / `social`); for input signals drawn
from a source set `S`, every narrative of `discover_narratives` carries
signal and source entries inside `S ∪ {"text_analysis"}`, and
catalog-matched (non-discovered) narratives stay inside `S` alone —
discovered narratives are the only ones with the extra synthetic source. -/
theorem C8_sources :
    (∀ (g : GithubPayload) (out : List Signal), extract_github_signals g = .ok out →
      ∀ s ∈ out, s.source = "github") ∧
    (∀ (d : DefiPayload) (out : List Signal), extract_defi_signals d = .ok out →
      ∀ s ∈ out, s.source = "defi") ∧
    (∀ (sp : SocialPayload) (out : List Signal), extract_social_signals sp = .ok out →
      ∀ s ∈ out, s.source = "social") ∧
    (∀ (sigs : List Signal) (corpus : List String) (S : List String),
      (∀ s ∈ sigs, s.source ∈ S) →
      ∀ n ∈ discover_narratives sigs corpus,
        (∀ s ∈ n.signals, s.source ∈ S ∨ s.source = "text_analysis") ∧
        (∀ src ∈ n.sources, src ∈ S ∨ src = "text_analysis") ∧
        (n.discovered = false →
          (∀ s ∈ n.signals, s.source ∈ S) ∧ (∀ src ∈ n.sources, src ∈ S))) := by
  refine ⟨?_, ?_, ?_, ?_⟩
  · intro g out h
    exact extract_github_sources h
  · intro d out h
    exact extract_defi_sources h
  · intro sp out h
    exact extract_social_sources h
  · intro sigs corpus S hS
    exact narrative_sources hS

/-- Witness for C8 (amended): one GitHub signal, the three-family source
set, and the narrative it produces. -/
theorem C8_witness :
    extract_github_signals ⟨some [⟨some "solana ai agent", some 2, some 10⟩], none, none⟩ =
      .ok [{ source := "github", type := "narrative_probe", topic := "ai agent",
             text := "2 active repos matching \x27solana ai agent\x27 with 10 combined stars",
             strength_raw := 2 }] ∧
    (∀ s ∈ [({ source := "github", type := "narrative_probe", topic := "ai agent",
               text := "2 active repos matching \x27solana ai agent\x27 with 10 combined stars",
               strength_raw := 2 } : Signal)],
      s.source = "github") ∧
    (∀ s ∈ [({ source := "github", type := "narrative_probe", topic := "ai agent",
               text := "2 active repos matching \x27solana ai agent\x27 with 10 combined stars",
               strength_raw := 2 } : Signal)],
      s.source ∈ (["github", "defi", "social"] : List String)) ∧
    ∀ n ∈ discover_narratives
        [{ source := "github", type := "narrative_probe", topic := "ai agent",
           text := "2 active repos matching \x27solana ai agent\x27 with 10 combined stars",
           strength_raw := 2 }] [],
      (∀ s ∈ n.signals, s.source ∈ (["github", "defi", "social"] : List String) ∨
        s.source = "text_analysis") ∧
      (∀ src ∈ n.sources, src ∈ (["github", "defi", "social"] : List String) ∨
        src = "text_analysis") ∧
      (n.discovered = false →
        (∀ s ∈ n.signals, s.source ∈ (["github", "defi", "social"] : List String)) ∧
        (∀ src ∈ n.sources, src ∈ (["github", "defi", "social"] : List String))) := by
  refine ⟨by decide, ?_, by decide, ?_⟩
  · exact C8_sources.1 ⟨some [⟨some "solana ai agent", some 2, some 10⟩], none, none⟩
      [{ source := "github", type := "narrative_probe", topic := "ai agent",
         text := "2 active repos matching \x27solana ai agent\x27 with 10 combined stars",
         strength_raw := 2 }] (by decide)
  · exact C8_sources.2.2.2
      [{ source := "github", type := "narrative_probe", topic := "ai agent",
         text := "2 active repos matching \x27solana ai agent\x27 with 10 combined stars",
         strength_raw := 2 }] [] ["github", "defi", "social"] (by decide)

/-! ## C9 — idea generation cap and priority fallback -/

theorem topProtocolNames_isOk {ps : List ProtocolRec}
    (h : ∀ p ∈ ps.take 5, p.name.isSome) : ∃ v, topProtocolNames ps = .ok v := by
  unfold topProtocolNames
  split
  · exact mapME_isOk fun p hp => req_isOk "name" (h p hp)
  · exact ⟨_, rfl⟩

theorem topFeeEarnerNames_isOk {fees : List FeeRec}
    (h : ∀ f ∈ fees.take 3, f.name.isSome) : ∃ v, topFeeEarnerNames fees = .ok v := by
  unfold topFeeEarnerNames
  split
  · exact mapME_isOk fun f hf => req_isOk "name" (h f hf)
  · exact ⟨_, rfl⟩

theorem topDexNames_isOk {dex : DexRec}
    (h : ∀ e ∈ (dex.top_dexes.getD []).take 3, e.name.isSome) :
    ∃ v, topDexNames dex = .ok v := by
  unfold topDexNames
  split
  · exact mapME_isOk fun e he => req_isOk "name" (h e he)
  · exact ⟨_, rfl⟩

theorem idea_templates_fst (ctx : IdeaContext) :
    (idea_templates ctx).map Prod.fst = priority_order := rfl

theorem matchKey_none {ts : List (String × List IdeaTemplate)} {name : String}
    (hex : ∀ e ∈ ts, ¬(e.1 == name) = true)
    (hfz : ∀ e ∈ ts, ¬fuzzyHit name e.1 = true) :
    matchKey ts name = none := by
  simp only [matchKey, List.find?_eq_none.mpr hex, List.find?_eq_none.mpr hfz,
    Option.map_none']

theorem firstPass_nomatch {ts : List (String × List IdeaTemplate)} :
    ∀ (ns : List Narrative) (ideas : List Idea) (used : List String),
      (∀ n ∈ ns, matchKey ts n.name = none) →
      firstPass ts ns ideas used = (ideas, used) := by
  intro ns
  induction ns with
  | nil => intro ideas used _; rfl
  | cons n rest ih =>
    intro ideas used h
    unfold firstPass
    split
    · rfl
    · rw [h n (List.mem_cons_self n rest)]
      exact ih ideas used fun a ha => h a (List.mem_cons_of_mem n ha)

theorem secondPass_spec {ts : List (String × List IdeaTemplate)} {narrs : List Narrative} :
    ∀ (keys : List String) (ideas : List Idea) (used : List String),
      (∀ k ∈ keys, narrs.find? (fun n => n.name == k) = none) →
      ∀ i ∈ (secondPass ts narrs keys ideas used).1,
        i ∈ ideas ∨ (i.narrative_score = 0 ∧ i.tied_narrative ∈ keys) := by
  intro keys
  induction keys with
  | nil =>
    intro ideas used _ i hi
    exact Or.inl hi
  | cons key rest ih =>
    intro ideas used h i hi
    unfold secondPass at hi
    split at hi
    · rw [h key (List.mem_cons_self key rest)] at hi
      dsimp only at hi
      split at hi
      · rcases List.mem_append.mp hi with hi1 | hi2
        · exact Or.inl hi1
        · obtain ⟨t, _, rfl⟩ := List.mem_map.mp hi2
          exact Or.inr ⟨rfl, List.mem_cons_self key rest⟩
      · rcases ih _ _ (fun k hk => h k (List.mem_cons_of_mem key hk)) i hi with
          hin | ⟨hsc, htied⟩
        · rcases List.mem_append.mp hin with hi1 | hi2
          · exact Or.inl hi1
          · obtain ⟨t, _, rfl⟩ := List.mem_map.mp hi2
            exact Or.inr ⟨rfl, List.mem_cons_self key rest⟩
        · exact Or.inr ⟨hsc, List.mem_cons_of_mem key htied⟩
    · rcases ih ideas used (fun k hk => h k (List.mem_cons_of_mem key hk)) i hi with
        hin | ⟨hsc, htied⟩
      · exact Or.inl hin
      · exact Or.inr ⟨hsc, List.mem_cons_of_mem key htied⟩

/-- C9: `generate_ideas` never returns more than 5 ideas; and when no
narrative name matches a template key exactly or fuzzily (no key word
longer than 3 characters occurs in any narrative name, case-insensitive),
every returned idea comes from the fixed priority ordering and carries
`narrative_score = 0`. -/
theorem C9_ideas :
    (∀ (ns : List Narrative) (d : DefiPayload) (r : List Idea),
      generate_ideas ns d = .ok r → r.length ≤ 5) ∧
    (∀ (ns : List Narrative) (d : DefiPayload),
      WFIdeas d →
      (∀ n ∈ ns, ∀ key ∈ priority_order,
        n.name ≠ key ∧ ∀ w ∈ keyWords key, strContains (lowerStr n.name) w = false) →
      ∃ r, generate_ideas ns d = .ok r ∧ r.length ≤ 5 ∧
        ∀ i ∈ r, i.narrative_score = 0 ∧ i.tied_narrative ∈ priority_order) := by
  constructor
  · intro ns d r h
    simp only [generate_ideas] at h
    obtain ⟨v1, _, h⟩ := bind_eq_ok h
    obtain ⟨v2, _, h⟩ := bind_eq_ok h
    obtain ⟨v3, _, h⟩ := bind_eq_ok h
    obtain ⟨v4, _, h⟩ := bind_eq_ok h
    obtain rfl := Except.ok.inj h
    rw [List.length_take]
    exact min_le_left _ _
  · intro ns d hwf hnm
    have hok : ∃ r, generate_ideas ns d = .ok r := by
      simp only [generate_ideas]
      apply bind_isOk (topProtocolNames_isOk hwf.1)
      intro v1
      apply bind_isOk (topFeeEarnerNames_isOk hwf.2.1)
      intro v2
      apply bind_isOk (topDexNames_isOk hwf.2.2.1)
      intro v3
      apply bind_isOk (mapME_isOk fun a ha => req_isOk "symbol" (hwf.2.2.2 a ha))
      intro v4
      exact ⟨_, rfl⟩
    obtain ⟨r, hr⟩ := hok
    refine ⟨r, hr, ?_, ?_⟩
    · simp only [generate_ideas] at hr
      obtain ⟨v1, _, hr⟩ := bind_eq_ok hr
      obtain ⟨v2, _, hr⟩ := bind_eq_ok hr
      obtain ⟨v3, _, hr⟩ := bind_eq_ok hr
      obtain ⟨v4, _, hr⟩ := bind_eq_ok hr
      obtain rfl := Except.ok.inj hr
      rw [List.length_take]
      exact min_le_left _ _
    · simp only [generate_ideas] at hr
      obtain ⟨v1, _, hr⟩ := bind_eq_ok hr
      obtain ⟨v2, _, hr⟩ := bind_eq_ok hr
      obtain ⟨v3, _, hr⟩ := bind_eq_ok hr
      obtain ⟨v4, _, hr⟩ := bind_eq_ok hr
      obtain rfl := Except.ok.inj hr
      intro i hi
      have hts : ∀ n ∈ ns, matchKey
          (idea_templates ⟨v1, v3, "$" ++
            toString (round1 ((d.tvl.getD ⟨none, none⟩).current_usd.getD 0 / 1000000000)) ++ "B",
            "$" ++ toString (round1
              ((d.stablecoins.getD ⟨none, none⟩).total_mcap_usd.getD 0 / 1000000000)) ++ "B",
            "$" ++ toString (pyRound
              ((d.dex.getD ⟨none, none, none⟩).total_24h_usd.getD 0 / 1000000)) ++ "M", v4⟩)
          n.name = none := by
        intro n hn
        apply matchKey_none
        · intro e he
          have hk : e.1 ∈ priority_order := by
            rw [← idea_templates_fst]
            exact List.mem_map_of_mem Prod.fst he
          have := (hnm n hn e.1 hk).1
          simp only [beq_iff_eq]
          exact fun hh => this hh.symm
        · intro e he
          have hk : e.1 ∈ priority_order := by
            rw [← idea_templates_fst]
            exact List.mem_map_of_mem Prod.fst he
          have hws := (hnm n hn e.1 hk).2
          intro hfz
          unfold fuzzyHit at hfz
          obtain ⟨w, hw, hcw⟩ := List.any_eq_true.mp hfz
          rw [hws w hw] at hcw
          cases hcw
      have hfp := firstPass_nomatch ns ([] : List Idea) ([] : List String) hts
      rw [hfp] at hi
      simp only [List.length_nil, Nat.zero_lt_succ, if_pos, Nat.lt_irrefl] at hi
      have hfind : ∀ k ∈ priority_order, ns.find? (fun n => n.name == k) = none := by
        intro k hk
        apply List.find?_eq_none.mpr
        intro n hn
        simp only [beq_iff_eq]
        exact (hnm n hn k hk).1
      have hspec := secondPass_spec priority_order ([] : List Idea) ([] : List String)
        hfind i (List.mem_of_mem_take hi)
      rcases hspec with hin | hq
      · cases hin
      · exact hq

/-- Witness for C9 at one unmatched narrative and an empty DeFi payload. -/
theorem C9_witness :
    WFIdeas ⟨none, none, none, none, none⟩ ∧
    (∀ n ∈ [({ name := "zzzz", raw_score := 0, signal_count := 0, sources := [],
               source_diversity := 0, signals := [], discovered := false,
               score := 7 } : Narrative)],
      ∀ key ∈ priority_order,
        n.name ≠ key ∧ ∀ w ∈ keyWords key, strContains (lowerStr n.name) w = false) ∧
    ∃ r, generate_ideas
        [{ name := "zzzz", raw_score := 0, signal_count := 0, sources := [],
           source_diversity := 0, signals := [], discovered := false, score := 7 }]
        ⟨none, none, none, none, none⟩ = .ok r ∧ r.length ≤ 5 ∧
      ∀ i ∈ r, i.narrative_score = 0 ∧ i.tied_narrative ∈ priority_order := by
  refine ⟨by decide, by decide, ?_⟩
  exact C9_ideas.2
    [{ name := "zzzz", raw_score := 0, signal_count := 0, sources := [],
       source_diversity := 0, signals := [], discovered := false, score := 7 }]
    ⟨none, none, none, none, none⟩ (by decide) (by decide)

/-! ## C4 — strict-inequality delta thresholds -/

/-- C4: a current narrative whose name exists in the previous snapshot is
classified by strict thresholds on `score_change = current − previous`:
`rising` iff the change exceeds 5, `fading` iff it is below −5, `stable`
otherwise; changes of exactly 5 or −5 are `stable`. -/
theorem C4_thresholds :
    ∀ (prev : Snapshot) (current : List Narrative) (i : ℕ) (n : Narrative) (p : ℚ),
      current[i]? = some n →
      prevScore (prev.narratives.getD []) n.name = some p →
      (compute_deltas current (some prev))[i]? =
        some { name := n.name, delta := classifyChange (n.score - p),
               score_change := round1 (n.score - p) } ∧
      (classifyChange (n.score - p) = "rising" ↔ 5 < n.score - p) ∧
      (classifyChange (n.score - p) = "fading" ↔ n.score - p < -5) ∧
      (classifyChange (n.score - p) = "stable" ↔ -5 ≤ n.score - p ∧ n.score - p ≤ 5) ∧
      (n.score - p = 5 → classifyChange (n.score - p) = "stable") ∧
      (n.score - p = -5 → classifyChange (n.score - p) = "stable") := by
  intro prev current i n p hi hp
  have hout : (compute_deltas current (some prev))[i]? =
      some { name := n.name, delta := classifyChange (n.score - p),
             score_change := round1 (n.score - p) } := by
    simp only [compute_deltas, List.getElem?_map, hi, Option.map_some']
    rw [hp]
  refine ⟨hout, ?_, ?_, ?_, ?_, ?_⟩
  · unfold classifyChange
    constructor
    · intro h
      by_contra hc
      push_neg at hc
      rw [if_neg (by exact not_lt.mpr hc)] at h
      split at h <;> simp_all
    · intro h
      rw [if_pos h]
  · unfold classifyChange
    constructor
    · intro h
      by_contra hc
      push_neg at hc
      split at h
      · simp_all
      · rw [if_neg (by exact not_lt.mpr hc)] at h
        simp_all
    · intro h
      rw [if_neg (by linarith), if_pos h]
  · unfold classifyChange
    constructor
    · intro h
      constructor
      · by_contra hc
        push_neg at hc
        rw [if_neg (by linarith), if_pos (by linarith)] at h
        simp_all
      · by_contra hc
        push_neg at hc
        rw [if_pos (by linarith)] at h
        simp_all
    · intro ⟨h1, h2⟩
      rw [if_neg (by linarith), if_neg (by linarith)]
  · intro h
    unfold classifyChange
    rw [if_neg (by linarith), if_neg (by linarith)]
  · intro h
    unfold classifyChange
    rw [if_neg (by linarith), if_neg (by linarith)]

/-- Witness for C4 at the spec scenario: previous score 40, current 47
gives `rising` with `score_change = 7.0`. -/
theorem C4_witness :
    ([{ name := "X", raw_score := 0, signal_count := 0, sources := [],
        source_diversity := 0, signals := [], discovered := false, score := 47 }] :
        List Narrative)[0]? =
      some { name := "X", raw_score := 0, signal_count := 0, sources := [],
             source_diversity := 0, signals := [], discovered := false, score := 47 } ∧
    prevScore ((Snapshot.mk (some [⟨"X", 40⟩])).narratives.getD []) "X" = some 40 ∧
    (compute_deltas
        [{ name := "X", raw_score := 0, signal_count := 0, sources := [],
           source_diversity := 0, signals := [], discovered := false, score := 47 }]
        (some (Snapshot.mk (some [⟨"X", 40⟩]))))[0]? =
      some { name := "X", delta := classifyChange ((47 : ℚ) - 40),
             score_change := round1 ((47 : ℚ) - 40) } ∧
    classifyChange ((47 : ℚ) - 40) = "rising" := by
  have h := C4_thresholds (Snapshot.mk (some [⟨"X", 40⟩]))
    [{ name := "X", raw_score := 0, signal_count := 0, sources := [],
       source_diversity := 0, signals := [], discovered := false, score := 47 }] 0
    { name := "X", raw_score := 0, signal_count := 0, sources := [],
      source_diversity := 0, signals := [], discovered := false, score := 47 } 40
    (by decide) (by decide)
  exact ⟨by decide, by decide, h.1, h.2.1.mpr (by norm_num)⟩

/-! ## C10 — per-category DeFi signals -/

theorem lookupCat_cons (k : String) (a : CatAcc) (rest : List (String × CatAcc)) (c : String) :
    lookupCat c ((k, a) :: rest) = if k = c then some a else lookupCat c rest := by
  unfold lookupCat
  by_cases h : k = c
  · rw [List.find?_cons_of_pos _ (by simp [h]), if_pos h]
    rfl
  · rw [List.find?_cons_of_neg _ (by simp [h]), if_neg h]

theorem addToCat_lookup (cat : String) (dtvl : ℚ) (dchg : List ℚ) (nm : String) :
    ∀ (acc : List (String × CatAcc)) (c : String),
      lookupCat c (addToCat cat dtvl dchg nm acc) =
        if cat = c then
          match lookupCat c acc with
          | some a => some ⟨a.tvl + dtvl, a.changes ++ dchg, a.protocols ++ [nm]⟩
          | none => some ⟨dtvl, dchg, [nm]⟩
        else lookupCat c acc := by
  intro acc
  induction acc with
  | nil =>
    intro c
    show lookupCat c [(cat, ⟨dtvl, dchg, [nm]⟩)] = _
    rw [lookupCat_cons]
    by_cases hc : cat = c
    · rw [if_pos hc, if_pos hc]
      rfl
    · rw [if_neg hc, if_neg hc]
  | cons e rest ih =>
    obtain ⟨k, a⟩ := e
    intro c
    by_cases hk : k = cat
    · have hstep : addToCat cat dtvl dchg nm ((k, a) :: rest) =
          (k, ⟨a.tvl + dtvl, a.changes ++ dchg, a.protocols ++ [nm]⟩) :: rest := by
        simp [addToCat, hk]
      rw [hstep, lookupCat_cons, lookupCat_cons]
      by_cases hc : k = c
      · rw [if_pos hc, if_pos (hk.symm.trans hc), if_pos hc]
      · rw [if_neg hc, if_neg (fun hh => hc (hk.trans hh)), if_neg hc]
    · have hstep : addToCat cat dtvl dchg nm ((k, a) :: rest) =
          (k, a) :: addToCat cat dtvl dchg nm rest := by
        simp [addToCat, hk]
      rw [hstep, lookupCat_cons, ih c, lookupCat_cons]
      by_cases hc : k = c
      · rw [if_pos hc, if_neg fun hh => hk (hc.trans hh.symm), if_pos hc]
      · rw [if_neg hc, if_neg hc]

theorem req_name_eq {p : ProtocolRec} {nm : String} (h : req "name" p.name = .ok nm) :
    p.name = some nm := by
  cases hp : p.name with
  | none =>
    rw [hp] at h
    exact Except.noConfusion h
  | some x =>
    rw [hp] at h
    obtain rfl := Except.ok.inj h
    rfl

theorem buildCatData_spec :
    ∀ (ps : List ProtocolRec) (acc entries : List (String × CatAcc)),
      buildCatData ps acc = .ok entries →
      ∀ c, lookupCat c entries = mergeAcc (lookupCat c acc) ps c := by
  intro ps
  induction ps with
  | nil =>
    intro acc entries h c
    obtain rfl := Except.ok.inj h
    cases hlk : lookupCat c acc with
    | none => simp [mergeAcc, catProtocols]
    | some a => simp [mergeAcc, catTvl, catChanges, catNames, catProtocols]
  | cons p ps ih =>
    intro acc entries h c
    rw [buildCatData] at h
    obtain ⟨nm, hnm, h2⟩ := bind_eq_ok h
    have hname : p.name = some nm := req_name_eq hnm
    rw [ih _ entries h2 c, addToCat_lookup]
    by_cases hc : p.category.getD "Other" = c
    · rw [if_pos hc]
      have hcp : catProtocols (p :: ps) c = p :: catProtocols ps c := by
        unfold catProtocols
        rw [List.filter_cons_of_pos (by simp [hc])]
      have h1 : catTvl (p :: ps) c = p.tvl_usd.getD 0 + catTvl ps c := by
        unfold catTvl
        rw [hcp, List.map_cons, List.sum_cons]
      have h2c : catChanges (p :: ps) c = chgOf p ++ catChanges ps c := by
        unfold catChanges
        rw [hcp, List.flatMap_cons]
      have h3 : catNames (p :: ps) c = nm :: catNames ps c := by
        unfold catNames
        rw [hcp, List.map_cons, hname]
        rfl
      cases hlk : lookupCat c acc with
      | some a =>
        show some ⟨(a.tvl + p.tvl_usd.getD 0) + catTvl ps c,
            (a.changes ++ chgOf p) ++ catChanges ps c,
            (a.protocols ++ [nm]) ++ catNames ps c⟩ =
          mergeAcc (some a) (p :: ps) c
        simp only [mergeAcc]
        rw [h1, h2c, h3]
        refine congrArg some ?_
        rw [CatAcc.mk.injEq]
        refine ⟨by ring, by rw [List.append_assoc], ?_⟩
        rw [List.append_assoc, List.singleton_append]
      | none =>
        show some ⟨p.tvl_usd.getD 0 + catTvl ps c, chgOf p ++ catChanges ps c,
            [nm] ++ catNames ps c⟩ = mergeAcc none (p :: ps) c
        simp only [mergeAcc]
        rw [if_neg (by rw [hcp]; simp)]
        rw [h1, h2c, h3]
        rfl
    · rw [if_neg hc]
      have hcp : catProtocols (p :: ps) c = catProtocols ps c := by
        unfold catProtocols
        rw [List.filter_cons_of_neg (by simp [hc])]
      have h1 : catTvl (p :: ps) c = catTvl ps c := by
        unfold catTvl
        rw [hcp]
      have h2c : catChanges (p :: ps) c = catChanges ps c := by
        unfold catChanges
        rw [hcp]
      have h3 : catNames (p :: ps) c = catNames ps c := by
        unfold catNames
        rw [hcp]
      cases hlk : lookupCat c acc with
      | some a =>
        simp only [mergeAcc]
        rw [h1, h2c, h3]
      | none =>
        simp only [mergeAcc]
        rw [hcp, h1, h2c, h3]

theorem addToCat_keys (cat : String) (dtvl : ℚ) (dchg : List ℚ) (nm : String) :
    ∀ (acc : List (String × CatAcc)) (x : String),
      x ∈ (addToCat cat dtvl dchg nm acc).map Prod.fst ↔
        x ∈ acc.map Prod.fst ∨ x = cat := by
  intro acc
  induction acc with
  | nil => intro x; simp [addToCat]
  | cons e rest ih =>
    obtain ⟨k, a⟩ := e
    intro x
    by_cases hk : k = cat
    · subst hk
      have hstep : addToCat k dtvl dchg nm ((k, a) :: rest) =
          (k, ⟨a.tvl + dtvl, a.changes ++ dchg, a.protocols ++ [nm]⟩) :: rest := by
        simp [addToCat]
      rw [hstep, List.map_cons, List.map_cons]
      simp only [List.mem_cons]
      tauto
    · have hstep : addToCat cat dtvl dchg nm ((k, a) :: rest) =
          (k, a) :: addToCat cat dtvl dchg nm rest := by
        simp [addToCat, hk]
      rw [hstep, List.map_cons, List.map_cons]
      simp only [List.mem_cons, ih x]
      tauto

theorem addToCat_nodup (cat : String) (dtvl : ℚ) (dchg : List ℚ) (nm : String) :
    ∀ (acc : List (String × CatAcc)),
      (acc.map Prod.fst).Nodup → ((addToCat cat dtvl dchg nm acc).map Prod.fst).Nodup := by
  intro acc
  induction acc with
  | nil => intro _; simp [addToCat]
  | cons e rest ih =>
    obtain ⟨k, a⟩ := e
    intro hnd
    rw [List.map_cons, List.nodup_cons] at hnd
    by_cases hk : k = cat
    · subst hk
      have hstep : addToCat k dtvl dchg nm ((k, a) :: rest) =
          (k, ⟨a.tvl + dtvl, a.changes ++ dchg, a.protocols ++ [nm]⟩) :: rest := by
        simp [addToCat]
      rw [hstep, List.map_cons, List.nodup_cons]
      exact hnd
    · have hstep : addToCat cat dtvl dchg nm ((k, a) :: rest) =
          (k, a) :: addToCat cat dtvl dchg nm rest := by
        simp [addToCat, hk]
      rw [hstep, List.map_cons, List.nodup_cons]
      refine ⟨?_, ih hnd.2⟩
      intro hmem
      rcases (addToCat_keys cat dtvl dchg nm rest k).mp hmem with hx | hx
      · exact hnd.1 hx
      · exact hk hx

theorem buildCatData_nodup :
    ∀ (ps : List ProtocolRec) (acc entries : List (String × CatAcc)),
      buildCatData ps acc = .ok entries →
      (acc.map Prod.fst).Nodup → (entries.map Prod.fst).Nodup := by
  intro ps
  induction ps with
  | nil =>
    intro acc entries h hnd
    obtain rfl := Except.ok.inj h
    exact hnd
  | cons p ps ih =>
    intro acc entries h hnd
    rw [buildCatData] at h
    obtain ⟨nm, _, h2⟩ := bind_eq_ok h
    exact ih _ entries h2 (addToCat_nodup _ _ _ _ acc hnd)

theorem lookupCat_mem {c : String} {entries : List (String × CatAcc)} {a : CatAcc}
    (h : lookupCat c entries = some a) : (c, a) ∈ entries := by
  unfold lookupCat at h
  cases hf : entries.find? (fun e => e.1 == c) with
  | none => rw [hf] at h; cases h
  | some e =>
    rw [hf] at h
    obtain rfl := Option.some.inj h
    have hm := List.mem_of_find?_eq_some hf
    have hp : e.1 = c := by simpa using List.find?_some hf
    have he : e = (c, e.2) := by rw [← hp]
    rw [← he]
    exact hm

theorem mem_lookupCat :
    ∀ {entries : List (String × CatAcc)}, (entries.map Prod.fst).Nodup →
      ∀ {k : String} {a : CatAcc}, (k, a) ∈ entries → lookupCat k entries = some a := by
  intro entries
  induction entries with
  | nil => intro _ k a he; cases he
  | cons e rest ih =>
    obtain ⟨k0, a0⟩ := e
    intro hnd k a he
    rw [List.map_cons, List.nodup_cons] at hnd
    rcases List.mem_cons.mp he with heq | hmem
    · obtain ⟨rfl, rfl⟩ := Prod.mk.injEq .. ▸ heq
      rw [lookupCat_cons, if_pos rfl]
    · rw [lookupCat_cons]
      have hne : k0 ≠ k := by
        intro hh
        subst hh
        exact hnd.1 (List.mem_map.mpr ⟨(k0, a), hmem, rfl⟩)
      rw [if_neg hne]
      exact ih hnd.2 hmem

theorem tvlSignals_type (t : TvlRec) : ∀ s ∈ tvlSignals t, s.type = "tvl_trend" := by
  intro s hs
  simp only [tvlSignals] at hs
  split at hs
  · obtain rfl := List.mem_singleton.mp hs
    rfl
  · cases hs

theorem feesSignals_type (fees : List FeeRec) : ∀ s ∈ feesSignals fees, s.type = "fees" := by
  intro s hs
  simp only [feesSignals] at hs
  split at hs
  · obtain rfl := List.mem_singleton.mp hs
    rfl
  · cases hs

theorem dexSignals_type (dex : DexRec) : ∀ s ∈ dexSignals dex, s.type = "dex_volume" := by
  intro s hs
  simp only [dexSignals] at hs
  split at hs
  · obtain rfl := List.mem_singleton.mp hs
    rfl
  · cases hs

theorem stablesSignals_type {st : StablesRec} {out : List Signal}
    (h : stablesSignals st = .ok out) : ∀ s ∈ out, s.type = "stablecoins" := by
  simp only [stablesSignals] at h
  split at h
  · obtain ⟨nm, _, hpure⟩ := bind_eq_ok h
    obtain rfl := Except.ok.inj hpure
    intro s hs
    obtain rfl := List.mem_singleton.mp hs
    rfl
  · obtain rfl := Except.ok.inj h
    intro s hs
    cases hs

theorem categorySignal_mem {e : String × CatAcc} {s : Signal} (h : s ∈ categorySignal e) :
    s.type = "category" ∧ s.topic = e.1 ∧ e.2.tvl > 5000000 ∧
      s.strength_raw = if catAvg e.2 ≠ 0 then |catAvg e.2| else e.2.tvl / 1000000000 := by
  simp only [categorySignal] at h
  split at h
  · obtain rfl := List.mem_singleton.mp h
    rename_i htvl
    exact ⟨rfl, rfl, htvl, rfl⟩
  · cases h

theorem categorySignal_nonempty {e : String × CatAcc} (h : e.2.tvl > 5000000) :
    ∃ s, s ∈ categorySignal e := by
  simp only [categorySignal]
  rw [if_pos h]
  exact ⟨_, List.mem_singleton.mpr rfl⟩

/-- C10: for a well-formed DeFi payload with a non-empty protocols list,
`extract_defi_signals` emits a `category` signal for a category exactly
when its summed `tvl_usd` exceeds five million; its `strength_raw` is the
absolute average of the truthy 7d changes, or the category TVL divided by
1e9 when that average is zero. -/
theorem C10_category :
    ∀ (d : DefiPayload), WFDefi d → d.protocols.getD [] ≠ [] →
      ∃ sigs, extract_defi_signals d = .ok sigs ∧
        ∀ c ∈ (d.protocols.getD []).map fun p => p.category.getD "Other",
          ((∃ s ∈ sigs, s.type = "category" ∧ s.topic = c) ↔
            catTvl (d.protocols.getD []) c > 5000000) ∧
          (∀ s ∈ sigs, s.type = "category" → s.topic = c →
            s.strength_raw =
              if catAvgOf (d.protocols.getD []) c ≠ 0 then
                |catAvgOf (d.protocols.getD []) c|
              else catTvl (d.protocols.getD []) c / 1000000000) := by
  intro d hwf hne
  obtain ⟨sigs, hsigs⟩ := extract_defi_isOk hwf
  refine ⟨sigs, hsigs, ?_⟩
  simp only [extract_defi_signals] at hsigs
  obtain ⟨s2, h2, hr⟩ := bind_eq_ok hsigs
  obtain ⟨s4, h4, hpure⟩ := bind_eq_ok hr
  obtain rfl := Except.ok.inj hpure
  simp only [protocolsSignals, if_pos hne] at h2
  obtain ⟨cd, hcd, h2p⟩ := bind_eq_ok h2
  obtain rfl := Except.ok.inj h2p
  have hnodup : (cd.map Prod.fst).Nodup :=
    buildCatData_nodup _ [] cd hcd (by simp)
  have hlk : ∀ c, lookupCat c cd = mergeAcc none (d.protocols.getD []) c := fun c =>
    buildCatData_spec _ [] cd hcd c
  intro c hc
  obtain ⟨p, hp, hpc⟩ := List.mem_map.mp hc
  have hcp_ne : catProtocols (d.protocols.getD []) c ≠ [] := by
    apply List.ne_nil_of_mem
    show p ∈ catProtocols (d.protocols.getD []) c
    unfold catProtocols
    exact List.mem_filter.mpr ⟨hp, by simp [hpc]⟩
  have hlkc : lookupCat c cd =
      some ⟨catTvl (d.protocols.getD []) c, catChanges (d.protocols.getD []) c,
        catNames (d.protocols.getD []) c⟩ := by
    rw [hlk c]
    simp only [mergeAcc]
    rw [if_neg hcp_ne]
  have hentry : (c, (⟨catTvl (d.protocols.getD []) c, catChanges (d.protocols.getD []) c,
      catNames (d.protocols.getD []) c⟩ : CatAcc)) ∈ cd := lookupCat_mem hlkc
  have hmemflat : ∀ {s : Signal},
      s ∈ (stableSortBy (fun a b => decide (b.2.tvl ≤ a.2.tvl)) cd).flatMap categorySignal ↔
        ∃ e ∈ cd, s ∈ categorySignal e := by
    intro s
    rw [List.mem_flatMap]
    constructor
    · rintro ⟨e, he, hse⟩
      exact ⟨e, (mem_stableSortBy_iff _ _ e).mp he, hse⟩
    · rintro ⟨e, he, hse⟩
      exact ⟨e, (mem_stableSortBy_iff _ _ e).mpr he, hse⟩
  constructor
  · constructor
    · rintro ⟨s, hs, htype, htopic⟩
      rcases List.mem_append.mp hs with hs1234 | hs5
      · rcases List.mem_append.mp hs1234 with hs123 | hs4m
        · rcases List.mem_append.mp hs123 with hs12 | hs3
          · rcases List.mem_append.mp hs12 with hs1 | hs2m
            · rw [tvlSignals_type _ s hs1] at htype
              exact absurd htype (by decide)
            · obtain ⟨e, he, hse⟩ := hmemflat.mp hs2m
              obtain ⟨e1, e2⟩ := e
              obtain ⟨_, htp, htvl2, _⟩ := categorySignal_mem hse
              have hec : e1 = c := htp.symm.trans htopic
              have he2 : (c, e2) ∈ cd := hec ▸ he
              have hsome := mem_lookupCat hnodup he2
              rw [hlkc] at hsome
              obtain rfl := Option.some.inj hsome
              exact htvl2
          · rw [feesSignals_type _ s hs3] at htype
            exact absurd htype (by decide)
        · rw [stablesSignals_type h4 s hs4m] at htype
          exact absurd htype (by decide)
      · rw [dexSignals_type _ s hs5] at htype
        exact absurd htype (by decide)
    · intro htvl
      obtain ⟨x, hx⟩ := @categorySignal_nonempty (c, ⟨catTvl (d.protocols.getD []) c,
        catChanges (d.protocols.getD []) c, catNames (d.protocols.getD []) c⟩) htvl
      obtain ⟨ht, htp, _, _⟩ := categorySignal_mem hx
      refine ⟨x, ?_, ht, htp⟩
      apply List.mem_append_left
      apply List.mem_append_left
      apply List.mem_append_left
      apply List.mem_append_right
      exact hmemflat.mpr ⟨_, hentry, hx⟩
  · intro s hs htype htopic
    rcases List.mem_append.mp hs with hs1234 | hs5
    · rcases List.mem_append.mp hs1234 with hs123 | hs4m
      · rcases List.mem_append.mp hs123 with hs12 | hs3
        · rcases List.mem_append.mp hs12 with hs1 | hs2m
          · rw [tvlSignals_type _ s hs1] at htype
            exact absurd htype (by decide)
          · obtain ⟨e, he, hse⟩ := hmemflat.mp hs2m
            obtain ⟨e1, e2⟩ := e
            obtain ⟨_, htp, _, hstr⟩ := categorySignal_mem hse
            have hec : e1 = c := htp.symm.trans htopic
            have he2 : (c, e2) ∈ cd := hec ▸ he
            have hsome := mem_lookupCat hnodup he2
            rw [hlkc] at hsome
            obtain rfl := Option.some.inj hsome
            rw [hstr]
            rfl
        · rw [feesSignals_type _ s hs3] at htype
          exact absurd htype (by decide)
      · rw [stablesSignals_type h4 s hs4m] at htype
        exact absurd htype (by decide)
    · rw [dexSignals_type _ s hs5] at htype
      exact absurd htype (by decide)

/-- Witness for C10: one six-million-TVL lending protocol produces a
`category` signal with the expected strength. -/
theorem C10_witness :
    WFDefi ⟨none, some [⟨some "Kamino", some "Lending", some 6000000, some 4⟩], none,
      none, none⟩ ∧
    (⟨none, some [⟨some "Kamino", some "Lending", some 6000000, some 4⟩], none,
      none, none⟩ : DefiPayload).protocols.getD [] ≠ [] ∧
    ∃ sigs, extract_defi_signals
        ⟨none, some [⟨some "Kamino", some "Lending", some 6000000, some 4⟩], none,
          none, none⟩ = .ok sigs ∧
      ∀ c ∈ ((⟨none, some [⟨some "Kamino", some "Lending", some 6000000, some 4⟩], none,
          none, none⟩ : DefiPayload).protocols.getD []).map fun p => p.category.getD "Other",
        ((∃ s ∈ sigs, s.type = "category" ∧ s.topic = c) ↔
          catTvl ((⟨none, some [⟨some "Kamino", some "Lending", some 6000000, some 4⟩],
            none, none, none⟩ : DefiPayload).protocols.getD []) c > 5000000) ∧
        (∀ s ∈ sigs, s.type = "category" → s.topic = c →
          s.strength_raw =
            if catAvgOf ((⟨none, some [⟨some "Kamino", some "Lending", some 6000000,
                some 4⟩], none, none, none⟩ : DefiPayload).protocols.getD []) c ≠ 0 then
              |catAvgOf ((⟨none, some [⟨some "Kamino", some "Lending", some 6000000,
                some 4⟩], none, none, none⟩ : DefiPayload).protocols.getD []) c|
            else catTvl ((⟨none, some [⟨some "Kamino", some "Lending", some 6000000,
              some 4⟩], none, none, none⟩ : DefiPayload).protocols.getD []) c /
              1000000000) := by
  refine ⟨by decide, by decide, ?_⟩
  exact C10_category
    ⟨none, some [⟨some "Kamino", some "Lending", some 6000000, some 4⟩], none, none, none⟩
    (by decide) (by decide)

end NarrativeTool
